import Mathlib

/-!
Verification development for the `monopoly_multimoney` repository.

The quant toolkit (src/quant) and the generation-2 content pipeline
(src/rnotegen_v2) are shallowly embedded below: pandas frames become lists
of bars, Python floats become rationals (`ℚ`), Python dicts become
association lists, and fallible code returns `Except`/`Option`.
-/

namespace S2P

/-! ## Price frames (pandas DataFrames of daily bars)

A frame row carries the OHLC columns plus the derived `J` indicator column
used by the B1 entry conditions.  `dt` is the row's position in `df.index`
(a trade date).  In pandas, `len(df) = len(df.index)` always holds; a frame
is therefore a single list of bars. -/

structure PriceBar where
  dt : Int
  openPx : ℚ
  highPx : ℚ
  lowPx : ℚ
  closePx : ℚ
  j : ℚ
deriving DecidableEq, Inhabited

abbrev Frame := List PriceBar

def closeAt (df : Frame) (i : Nat) : ℚ := (df.getD i default).closePx

def openAt (df : Frame) (i : Nat) : ℚ := (df.getD i default).openPx

def highAt (df : Frame) (i : Nat) : ℚ := (df.getD i default).highPx

def lowAt (df : Frame) (i : Nat) : ℚ := (df.getD i default).lowPx

def jAt (df : Frame) (i : Nat) : ℚ := (df.getD i default).j

def dateAt (df : Frame) (i : Nat) : Int := (df.getD i default).dt

def closes (df : Frame) : List ℚ := df.map (fun b => b.closePx)

/-- The `n`-wide window of `xs` ending at position `i` (inclusive),
mirroring a pandas `rolling(window=n)` slice. -/
def windowSlice (xs : List ℚ) (i n : Nat) : List ℚ :=
  (xs.drop (i + 1 - n)).take n

/-! ## Technical condition library (src/quant/util/conditions.py)

Each predicate defensively returns `false` when history is insufficient,
exactly as the source does (out-of-range `iloc` raises and is caught). -/

def isKdjLow (df : Frame) (i : Nat) (j_threshold : ℚ) : Bool :=
  decide (i < df.length) && decide (jAt df i < j_threshold)

def isBottomPattern (df : Frame) (i : Nat) : Bool :=
  decide (2 ≤ i) && decide (i < df.length) &&
  decide (lowAt df i < lowAt df (i - 1)) && decide (lowAt df i < lowAt df (i - 2)) &&
  decide (highAt df i < highAt df (i - 1)) && decide (highAt df i < highAt df (i - 2))

def isBigPositive (df : Frame) (i : Nat) (pct_threshold : ℚ) : Bool :=
  decide (i < df.length) && decide (closeAt df i > openAt df i * (1 + pct_threshold))

/-- `is_above_ma`: close above the `window`-bar simple moving average.  The
pandas rolling mean is NaN while fewer than `window` bars exist, and a
NaN comparison is `False`, hence the `window ≤ i + 1` conjunct. -/
def isAboveMa (df : Frame) (i : Nat) (window : Nat) : Bool :=
  decide (0 < window) && decide (i < df.length) && decide (window ≤ df.length) &&
  decide (window ≤ i + 1) &&
  decide (closeAt df i > (windowSlice (closes df) i window).sum / (window : ℚ))

/-! ## B1 entry strategy (src/quant/strategies/entry/b1_entry.py) -/

structure B1Params where
  stop_loss_pct : ℚ
  take_profit_pct : ℚ
  min_trade_days : Nat
  j_threshold : ℚ
  big_positive_pct : ℚ
  ma_window : Nat
deriving DecidableEq

def defaultB1Params : B1Params :=
  { stop_loss_pct := 12/100
    take_profit_pct := 3/10
    min_trade_days := 20
    j_threshold := -10
    big_positive_pct := 5/100
    ma_window := 20 }

/-- Entry signal dict shape.  `metaExecution` models `meta['execution']`. -/
structure EntrySignal where
  symbol : String
  date : Int
  price : ℚ
  stop_loss : ℚ
  target_price : ℚ
  exec_date : Option Int
  exec_price_type : Option String
  metaExecution : Option String
deriving DecidableEq

def b1Trigger (p : B1Params) (df : Frame) (i : Nat) : Bool :=
  isKdjLow df i p.j_threshold && isBottomPattern df i &&
  isBigPositive df i p.big_positive_pct && isAboveMa df i p.ma_window

/-- `B1Entry.generate`: evaluates the trigger at the last bar only. -/
def b1Generate (p : B1Params) (symbol : String) (df : Frame) : List EntrySignal :=
  if df.length = 0 ∨ df.length < p.min_trade_days then []
  else
    let i := df.length - 1
    if b1Trigger p df i then
      let price := closeAt df i
      let stop_loss :=
        if 1 ≤ i then lowAt df (i - 1) * (1 - p.stop_loss_pct) else price * (88/100)
      [{ symbol := symbol
         date := dateAt df i
         price := price
         stop_loss := stop_loss
         target_price := price * (1 + p.take_profit_pct)
         exec_date := none
         exec_price_type := none
         metaExecution := none }]
    else []

/-- `B1EntryTPlus1.generate` (src/quant/strategies/entry/tplus1_entry.py):
wraps `b1Generate`; `i` is the last index and the signal is dropped when
`i + 1 >= len(df.index)`, otherwise each signal is stamped with the next
bar's date and an open-price execution marker. -/
def b1TPlus1Generate (p : B1Params) (symbol : String) (df : Frame) : List EntrySignal :=
  let base := b1Generate p symbol df
  if base = [] then []
  else
    let i := df.length - 1
    if df.length ≤ i + 1 then []
    else
      let nextDt := dateAt df (i + 1)
      base.map (fun s =>
        { s with
          exec_date := some nextDt
          exec_price_type := some "open"
          metaExecution := some "T+1_open" })

/-- C1: on every frame where `B1Entry` triggers at the last bar,
`B1EntryTPlus1.generate` suppresses the signal entirely when no bar follows
the trigger bar (which, the trigger bar being the frame's last bar, is
every such frame); and in the — vacuous — case that a bar follows the
trigger bar, every emitted signal carries that next bar's date as
`exec_date` and `exec_price_type = 'open'`. -/
theorem b1_tplus1_no_lookahead (p : B1Params) (symbol : String) (df : Frame)
    (htrig : b1Generate p symbol df ≠ []) :
    (df.length ≤ (df.length - 1) + 1 → b1TPlus1Generate p symbol df = []) ∧
    ((df.length - 1) + 1 < df.length →
      ∀ s ∈ b1TPlus1Generate p symbol df,
        s.exec_date = some (dateAt df ((df.length - 1) + 1)) ∧
        s.exec_price_type = some "open") := by
  constructor
  · intro h
    simp only [b1TPlus1Generate, if_neg htrig]
    simp [h]
  · intro h
    exfalso
    rcases Nat.eq_zero_or_pos df.length with h0 | h0
    · apply htrig
      simp [b1Generate, h0]
    · omega

/-- Concrete 21-bar frame on which all four B1 conditions fire at the last
bar. -/
def c1BarBase : PriceBar :=
  { dt := 0, openPx := 10, highPx := 30, lowPx := 5, closePx := 10, j := 0 }

def c1BarLast : PriceBar :=
  { dt := 20, openPx := 10, highPx := 25, lowPx := 4, closePx := 20, j := -20 }

def c1Frame : Frame := List.replicate 20 c1BarBase ++ [c1BarLast]

theorem c1Frame_generates :
    b1Generate defaultB1Params "600000" c1Frame ≠ [] := by
  norm_num [b1Generate, b1Trigger, isKdjLow, isBottomPattern, isBigPositive, isAboveMa,
    closeAt, openAt, highAt, lowAt, jAt, dateAt, closes, windowSlice,
    c1Frame, c1BarBase, c1BarLast, defaultB1Params, List.replicate]

theorem b1_tplus1_no_lookahead_witness :
    b1TPlus1Generate defaultB1Params "600000" c1Frame = [] :=
  (b1_tplus1_no_lookahead defaultB1Params "600000" c1Frame c1Frame_generates).1
    (by norm_num [c1Frame])

/-! ## KDJ indicator (src/quant/util/market_data_handler.py, calculate_kdj)

`calculate_kdj` computes, in one pass: RSV over an `n`-bar rolling window
(leading incomplete windows are NaN, then `fillna(50)`), then
`K = ewm(alpha=1/m1, adjust=False)` of RSV, `D = ewm(alpha=1/m2)` of `K`,
`J = 3K - 2D`.  When the rolling high equals the rolling low the RSV
numerator is also zero for any bar with `low ≤ close ≤ high`, so the
division is 0/0 = NaN and `fillna` turns it into 50; the embedding returns
50 directly in that case (frames violating per-bar `low ≤ close ≤ high`
would produce ±inf in the source and are outside the theorems below). -/

def lows (df : Frame) : List ℚ := df.map (fun b => b.lowPx)

def highs (df : Frame) : List ℚ := df.map (fun b => b.highPx)

def listMinQ : List ℚ → Option ℚ
  | [] => none
  | x :: xs => some (xs.foldl min x)

def listMaxQ : List ℚ → Option ℚ
  | [] => none
  | x :: xs => some (xs.foldl max x)

/-- `rolling(window=n).min()` at row `i`: none while fewer than `n` bars. -/
def rollingMin (xs : List ℚ) (n i : Nat) : Option ℚ :=
  if n = 0 ∨ i + 1 < n ∨ xs.length ≤ i then none
  else listMinQ (windowSlice xs i n)

def rollingMax (xs : List ℚ) (n i : Nat) : Option ℚ :=
  if n = 0 ∨ i + 1 < n ∨ xs.length ≤ i then none
  else listMaxQ (windowSlice xs i n)

def rsvAt (df : Frame) (n i : Nat) : ℚ :=
  match rollingMin (lows df) n i, rollingMax (highs df) n i with
  | some lmin, some hmax =>
      if hmax - lmin = 0 then 50 else (closeAt df i - lmin) / (hmax - lmin) * 100
  | _, _ => 50

def rsvList (df : Frame) (n : Nat) : List ℚ :=
  (List.range df.length).map (rsvAt df n)

/-- `ewm(alpha=a, adjust=False).mean()` recurrence: `y0 = x0`,
`y i = (1-a) * y (i-1) + a * x i`. -/
def emaAux (a acc : ℚ) : List ℚ → List ℚ
  | [] => [acc]
  | x :: xs => acc :: emaAux a ((1 - a) * acc + a * x) xs

def emaAlpha (a : ℚ) : List ℚ → List ℚ
  | [] => []
  | x :: xs => emaAux a x xs

def kdjK (df : Frame) (n : Nat) (m1 : ℚ) : List ℚ :=
  emaAlpha (1 / m1) (rsvList df n)

def kdjD (df : Frame) (n : Nat) (m1 m2 : ℚ) : List ℚ :=
  emaAlpha (1 / m2) (kdjK df n m1)

def kdjJ (df : Frame) (n : Nat) (m1 m2 : ℚ) : List ℚ :=
  List.zipWith (fun k d => 3 * k - 2 * d) (kdjK df n m1) (kdjD df n m1 m2)

/-- Modelled from the spec: the duplicate K1/D1/J1 column set.  The spec
(and the unit test's expected columns) describe a second KDJ pass that is
absent from `calculate_kdj` in src; per the spec it uses a span-based EMA,
i.e. smoothing factor `2 / (m + 1)` for span `m`, over the same RSV. -/
def kdjK1 (df : Frame) (n : Nat) (m1 : ℚ) : List ℚ :=
  emaAlpha (2 / (m1 + 1)) (rsvList df n)

def kdjD1 (df : Frame) (n : Nat) (m1 m2 : ℚ) : List ℚ :=
  emaAlpha (2 / (m2 + 1)) (kdjK1 df n m1)

/-- Two-bar frame whose RSV series is [0, 100] for `n = 1`. -/
def c3Frame : Frame :=
  [{ dt := 0, openPx := 0, highPx := 100, lowPx := 0, closePx := 0, j := 0 },
   { dt := 1, openPx := 0, highPx := 100, lowPx := 0, closePx := 100, j := 0 }]

/-- C3 counterexample: the span-based EMA pass and the alpha = 1/m EMA pass
are not numerically equal: with m1 = 3 the smoothing factors are 1/2 and
1/3, and on the RSV series [0, 100] the second K value is 50 in one pass
and 100/3 in the other. -/
theorem kdj_dual_pass_counterexample :
    kdjK1 c3Frame 1 3 ≠ kdjK c3Frame 1 3 := by
  have h1 : kdjK1 c3Frame 1 3 = [0, 50] := by
    norm_num [kdjK1, emaAlpha, emaAux, rsvList, rsvAt, rollingMin, rollingMax,
      listMinQ, listMaxQ, windowSlice, lows, highs, closeAt, c3Frame, List.range_succ]
  have h2 : kdjK c3Frame 1 3 = [0, 100/3] := by
    norm_num [kdjK, emaAlpha, emaAux, rsvList, rsvAt, rollingMin, rollingMax,
      listMinQ, listMaxQ, windowSlice, lows, highs, closeAt, c3Frame, List.range_succ]
  rw [h1, h2]
  intro h
  have := List.tail_eq_of_cons_eq h
  simp at this
  norm_num at this

lemma foldl_min_le_init (xs : List ℚ) (a : ℚ) : xs.foldl min a ≤ a := by
  induction xs generalizing a with
  | nil => simp
  | cons x xs ih =>
      simp only [List.foldl_cons]
      exact le_trans (ih (min a x)) (min_le_left a x)

lemma foldl_min_le_mem (xs : List ℚ) (a y : ℚ) (hy : y ∈ xs) : xs.foldl min a ≤ y := by
  induction xs generalizing a with
  | nil => simp at hy
  | cons x xs ih =>
      simp only [List.foldl_cons]
      rcases List.mem_cons.mp hy with h | h
      · subst h
        exact le_trans (foldl_min_le_init xs (min a y)) (min_le_right a y)
      · exact ih (min a x) h

lemma le_foldl_max_init (xs : List ℚ) (a : ℚ) : a ≤ xs.foldl max a := by
  induction xs generalizing a with
  | nil => simp
  | cons x xs ih =>
      simp only [List.foldl_cons]
      exact le_trans (le_max_left a x) (ih (max a x))

lemma le_foldl_max_mem (xs : List ℚ) (a y : ℚ) (hy : y ∈ xs) : y ≤ xs.foldl max a := by
  induction xs generalizing a with
  | nil => simp at hy
  | cons x xs ih =>
      simp only [List.foldl_cons]
      rcases List.mem_cons.mp hy with h | h
      · subst h
        exact le_trans (le_max_right a y) (le_foldl_max_init xs (max a y))
      · exact ih (max a x) h

lemma listMinQ_le (xs : List ℚ) (m y : ℚ) (hm : listMinQ xs = some m) (hy : y ∈ xs) :
    m ≤ y := by
  cases xs with
  | nil => simp [listMinQ] at hm
  | cons x xs =>
      simp only [listMinQ, Option.some.injEq] at hm
      subst hm
      rcases List.mem_cons.mp hy with h | h
      · exact h ▸ foldl_min_le_init xs x
      · exact foldl_min_le_mem xs x y h

lemma le_listMaxQ (xs : List ℚ) (m y : ℚ) (hm : listMaxQ xs = some m) (hy : y ∈ xs) :
    y ≤ m := by
  cases xs with
  | nil => simp [listMaxQ] at hm
  | cons x xs =>
      simp only [listMaxQ, Option.some.injEq] at hm
      subst hm
      rcases List.mem_cons.mp hy with h | h
      · exact h ▸ le_foldl_max_init xs x
      · exact le_foldl_max_mem xs x y h

/-- The current row belongs to its own rolling window. -/
lemma getD_mem_windowSlice (xs : List ℚ) (i n : Nat) (hn : 0 < n) (hni : n ≤ i + 1)
    (hi : i < xs.length) : xs.getD i 0 ∈ windowSlice xs i n := by
  unfold windowSlice
  have hlt : n - 1 < ((xs.drop (i + 1 - n)).take n).length := by
    simp only [List.length_take, List.length_drop]
    omega
  refine List.mem_iff_getElem.mpr ⟨n - 1, hlt, ?_⟩
  rw [List.getElem_take, List.getElem_drop, List.getD_eq_getElem xs 0 hi]
  have hidx : i + 1 - n + (n - 1) = i := by omega
  simp only [hidx]

/-- Per-bar sanity: each bar's close lies between its low and high. -/
def FrameSane (df : Frame) : Prop :=
  ∀ b ∈ df, b.lowPx ≤ b.closePx ∧ b.closePx ≤ b.highPx

lemma rsvAt_bounds (df : Frame) (n i : Nat) (hs : FrameSane df) :
    0 ≤ rsvAt df n i ∧ rsvAt df n i ≤ 100 := by
  unfold rsvAt
  by_cases hc : n = 0 ∨ i + 1 < n ∨ (lows df).length ≤ i
  · have h1 : rollingMin (lows df) n i = none := by
      unfold rollingMin
      rw [if_pos hc]
    rw [h1]
    norm_num
  · push_neg at hc
    obtain ⟨hn0, hni, hilen⟩ := hc
    have hlenlows : (lows df).length = df.length := by simp [lows]
    have hlenhighs : (highs df).length = df.length := by simp [highs]
    have hi : i < df.length := by omega
    have hminEq : rollingMin (lows df) n i = listMinQ (windowSlice (lows df) i n) := by
      unfold rollingMin
      rw [if_neg]
      push_neg
      exact ⟨hn0, by omega, by omega⟩
    have hmaxEq : rollingMax (highs df) n i = listMaxQ (windowSlice (highs df) i n) := by
      unfold rollingMax
      rw [if_neg]
      push_neg
      exact ⟨hn0, by omega, by omega⟩
    have hb : (df.getD i default).lowPx ≤ (df.getD i default).closePx ∧
        (df.getD i default).closePx ≤ (df.getD i default).highPx := by
      apply hs
      rw [List.getD_eq_getElem df default hi]
      exact List.getElem_mem hi
    have hlowmem : (lows df).getD i 0 ∈ windowSlice (lows df) i n :=
      getD_mem_windowSlice _ i n (by omega) (by omega) (by omega)
    have hhighmem : (highs df).getD i 0 ∈ windowSlice (highs df) i n :=
      getD_mem_windowSlice _ i n (by omega) (by omega) (by omega)
    have hlowval : (lows df).getD i 0 = (df.getD i default).lowPx := by
      rw [List.getD_eq_getElem df default hi,
        List.getD_eq_getElem (lows df) 0 (by omega)]
      simp [lows]
    have hhighval : (highs df).getD i 0 = (df.getD i default).highPx := by
      rw [List.getD_eq_getElem df default hi,
        List.getD_eq_getElem (highs df) 0 (by omega)]
      simp [highs]
    cases hwmin : listMinQ (windowSlice (lows df) i n) with
    | none =>
        rw [hminEq, hwmin]
        norm_num
    | some lmin =>
        cases hwmax : listMaxQ (windowSlice (highs df) i n) with
        | none =>
            rw [hminEq, hwmin, hmaxEq, hwmax]
            norm_num
        | some hmax' =>
            rw [hminEq, hwmin, hmaxEq, hwmax]
            simp only
            have hminle : lmin ≤ (lows df).getD i 0 :=
              listMinQ_le _ lmin _ hwmin hlowmem
            have hmaxge : (highs df).getD i 0 ≤ hmax' :=
              le_listMaxQ _ hmax' _ hwmax hhighmem
            have h1 : lmin ≤ closeAt df i := by
              rw [hlowval] at hminle
              exact le_trans hminle hb.1
            have h2 : closeAt df i ≤ hmax' := by
              rw [hhighval] at hmaxge
              exact le_trans hb.2 hmaxge
            by_cases hz : hmax' - lmin = 0
            · rw [if_pos hz]
              norm_num
            · rw [if_neg hz]
              have hpos : 0 < hmax' - lmin := by
                rcases lt_or_eq_of_le (by linarith : lmin ≤ hmax') with h | h
                · linarith
                · exact absurd (by linarith) hz
              constructor
              · exact mul_nonneg (div_nonneg (by linarith) (le_of_lt hpos)) (by norm_num)
              · have hd1 : (closeAt df i - lmin) / (hmax' - lmin) ≤ 1 := by
                  rw [div_le_one hpos]
                  linarith
                nlinarith [div_nonneg (by linarith : (0:ℚ) ≤ closeAt df i - lmin)
                  (le_of_lt hpos)]

lemma emaAux_bounds (a acc : ℚ) (xs : List ℚ) (ha0 : 0 ≤ a) (ha1 : a ≤ 1)
    (hacc : 0 ≤ acc ∧ acc ≤ 100) (hxs : ∀ x ∈ xs, 0 ≤ x ∧ x ≤ 100) :
    ∀ y ∈ emaAux a acc xs, 0 ≤ y ∧ y ≤ 100 := by
  induction xs generalizing acc with
  | nil =>
      intro y hy
      simp only [emaAux, List.mem_singleton] at hy
      exact hy ▸ hacc
  | cons x xs ih =>
      intro y hy
      simp only [emaAux, List.mem_cons] at hy
      rcases hy with h | h
      · exact h ▸ hacc
      · have hx := hxs x (List.mem_cons_self x xs)
        refine ih ((1 - a) * acc + a * x) ⟨?_, ?_⟩
          (fun z hz => hxs z (List.mem_cons_of_mem x hz)) y h
        · have := mul_nonneg (by linarith : (0:ℚ) ≤ 1 - a) hacc.1
          have := mul_nonneg ha0 hx.1
          linarith
        · nlinarith [hacc.2, hx.2]

lemma emaAlpha_bounds (a : ℚ) (xs : List ℚ) (ha0 : 0 ≤ a) (ha1 : a ≤ 1)
    (hxs : ∀ x ∈ xs, 0 ≤ x ∧ x ≤ 100) :
    ∀ y ∈ emaAlpha a xs, 0 ≤ y ∧ y ≤ 100 := by
  cases xs with
  | nil => intro y hy; simp [emaAlpha] at hy
  | cons x xs =>
      exact emaAux_bounds a x xs ha0 ha1 (hxs x (List.mem_cons_self x xs))
        (fun z hz => hxs z (List.mem_cons_of_mem x hz))

lemma inv_alpha_bounds (m : ℚ) (hm : 1 ≤ m) : 0 ≤ 1 / m ∧ 1 / m ≤ 1 := by
  have hm0 : 0 < m := by linarith
  constructor
  · positivity
  · rw [div_le_one hm0]; linarith

/-- C3 (amended): `calculate_kdj` computes a single pass (the alpha = 1/m
EMA); for that pass, on any price history whose bars satisfy
`low ≤ close ≤ high` and any parameters with `m1, m2 ≥ 1`, every K value
and every D value lies in [0, 100].  (The spec's second, span-based pass —
modelled above from the spec — is not numerically equal to it in general;
see the counterexample.) -/
theorem kdj_k_d_in_bounds (df : Frame) (n : Nat) (m1 m2 : ℚ)
    (hm1 : 1 ≤ m1) (hm2 : 1 ≤ m2) (hs : FrameSane df) :
    (∀ k ∈ kdjK df n m1, 0 ≤ k ∧ k ≤ 100) ∧
    (∀ d ∈ kdjD df n m1 m2, 0 ≤ d ∧ d ≤ 100) := by
  have ha1 := inv_alpha_bounds m1 hm1
  have ha2 := inv_alpha_bounds m2 hm2
  have hrsv : ∀ x ∈ rsvList df n, 0 ≤ x ∧ x ≤ 100 := by
    intro x hx
    simp only [rsvList, List.mem_map] at hx
    obtain ⟨i, _, rfl⟩ := hx
    exact rsvAt_bounds df n i hs
  have hK : ∀ k ∈ kdjK df n m1, 0 ≤ k ∧ k ≤ 100 :=
    emaAlpha_bounds (1 / m1) (rsvList df n) ha1.1 ha1.2 hrsv
  exact ⟨hK, emaAlpha_bounds (1 / m2) (kdjK df n m1) ha2.1 ha2.2 hK⟩

theorem kdj_k_d_in_bounds_witness :
    (0:ℚ) ≤ 100/3 ∧ (100/3:ℚ) ≤ 100 := by
  have hmem : (100/3 : ℚ) ∈ kdjK c3Frame 1 3 := by
    have h2 : kdjK c3Frame 1 3 = [0, 100/3] := by
      norm_num [kdjK, emaAlpha, emaAux, rsvList, rsvAt, rollingMin, rollingMax,
        listMinQ, listMaxQ, windowSlice, lows, highs, closeAt, c3Frame, List.range_succ]
    rw [h2]
    simp
  exact (kdj_k_d_in_bounds c3Frame 1 3 3 (by norm_num) (by norm_num)
    (by intro b hb
        simp only [c3Frame, List.mem_cons, List.mem_singleton, List.not_mem_nil,
          or_false] at hb
        rcases hb with rfl | rfl <;> norm_num)).1 (100/3) hmem

/-! ## Four-layer strategy factory (src/quant/strategies/composite/factory.py)

The registries map lower-cased names to strategy classes (modelled by their
class names).  `CompositeStrategy.__init__` in
src/quant/strategies/composite/base.py accepts exactly the keyword
parameters `selection`, `entry`, `exit_rule`, `name`; the factory calls it
with an additional `execution_model=` keyword, which in Python raises
`TypeError`.  Python call semantics are modelled by checking the supplied
keyword list against the accepted parameter names. -/

inductive PyError
  | valueError (msg : String)
  | typeError (msg : String)
deriving DecidableEq

/-- Python `str.lower()` (ASCII range, which covers every registry key). -/
def lowerChar (c : Char) : Char :=
  if 65 ≤ c.toNat ∧ c.toNat ≤ 90 then Char.ofNat (c.toNat + 32) else c

def pyLower (s : String) : String := ⟨s.data.map lowerChar⟩

def SELECTION_STRATEGIES : List (String × String) :=
  [("b1", "B1Selection"),
   ("hs300_top20", "HS300TopWeightSelection"),
   ("hs300_top_weight", "HS300TopWeightSelection"),
   ("index_contribute", "IndexContributeSelection"),
   ("index_contribute_selection", "IndexContributeSelection")]

def ENTRY_STRATEGIES : List (String × String) :=
  [("b1", "B1Entry"), ("b1_tplus1", "B1EntryTPlus1")]

def EXIT_STRATEGIES : List (String × String) :=
  [("fixed", "FixedRiskExit"), ("time", "TimeBasedExit"),
   ("trailing", "TrailingStopExit"), ("advanced", "AdvancedExit")]

def EXECUTION_MODELS : List (String × String) :=
  [("close", "CloseExecutionModel"), ("next_open", "NextOpenExecutionModel"),
   ("tplus1", "NextOpenExecutionModel"), ("t+1", "NextOpenExecutionModel"),
   ("vwap", "VWAPApproxExecutionModel")]

def getSelection (name : String) : Except PyError String :=
  match SELECTION_STRATEGIES.lookup (pyLower name) with
  | some cls => .ok cls
  | none => .error (.valueError ("未知选股策略: " ++ name))

def getEntry (name : String) : Except PyError String :=
  match ENTRY_STRATEGIES.lookup (pyLower name) with
  | some cls => .ok cls
  | none => .error (.valueError ("未知入场策略: " ++ name))

def getExitRule (name : String) : Except PyError String :=
  match EXIT_STRATEGIES.lookup (pyLower name) with
  | some cls => .ok cls
  | none => .error (.valueError ("未知退出策略: " ++ name))

def getExecutionModel (name : String) : Except PyError String :=
  match EXECUTION_MODELS.lookup (pyLower name) with
  | some cls => .ok cls
  | none => .error (.valueError ("未知执行模型: " ++ name))

/-- The three-layer `CompositeStrategy` of
src/quant/strategies/composite/base.py (fields = its `__init__`
parameters). -/
structure CompositeStrategy where
  selection : String
  entry : String
  exit_rule : String
  name : String
deriving DecidableEq

inductive PyVal
  | strat (cls : String)
  | str (s : String)
deriving DecidableEq

instance : DecidableEq (Except PyError CompositeStrategy) := by
  intro a b
  cases a <;> cases b
  case error.error e1 e2 =>
    exact match decEq e1 e2 with
      | isTrue h => isTrue (by rw [h])
      | isFalse h => isFalse (by intro hc; cases hc; exact h rfl)
  case ok.ok v1 v2 =>
    exact match decEq v1 v2 with
      | isTrue h => isTrue (by rw [h])
      | isFalse h => isFalse (by intro hc; cases hc; exact h rfl)
  case error.ok e v => exact isFalse (by intro hc; cases hc)
  case ok.error v e => exact isFalse (by intro hc; cases hc)

def compositeInitParamNames : List String := ["selection", "entry", "exit_rule", "name"]

/-- Python keyword-call semantics for `CompositeStrategy(...)`: an
unexpected keyword raises `TypeError`. -/
def callCompositeInit (kwargs : List (String × PyVal)) : Except PyError CompositeStrategy :=
  match kwargs.find? (fun kv => !(compositeInitParamNames.contains kv.1)) with
  | some kv =>
      .error (.typeError
        ("CompositeStrategy.__init__() got an unexpected keyword argument " ++ kv.1))
  | none =>
      match kwargs.lookup "selection", kwargs.lookup "entry",
            kwargs.lookup "exit_rule", kwargs.lookup "name" with
      | some (.strat s), some (.strat e), some (.strat x), some (.str n) =>
          .ok { selection := s, entry := e, exit_rule := x, name := n }
      | _, _, _, _ => .error (.typeError "CompositeStrategy.__init__() missing arguments")

def missingMark (v : String) : String := if v = "" then "MISSING" else v

def incompleteConfigMsg (s e x m : String) : String :=
  "策略配置不完整！必须提供四层策略：\n" ++
  "  - selection: " ++ missingMark s ++ "\n" ++
  "  - entry: " ++ missingMark e ++ "\n" ++
  "  - exit: " ++ missingMark x ++ "\n" ++
  "  - execution: " ++ missingMark m

/-- A Python optional-string argument is truthy when present and
non-empty. -/
def nameTruthy : Option String → Bool
  | none => false
  | some s => s ≠ ""

/-- `build_custom_strategy` (src/quant/strategies/composite/factory.py). -/
def buildCustomStrategy (selection_name entry_name exit_name execution_name : String)
    (name : Option String) (default_name : String) (validate : Bool) :
    Except PyError CompositeStrategy :=
  if validate &&
      (selection_name = "" || entry_name = "" || exit_name = "" || execution_name = "") then
    .error (.valueError (incompleteConfigMsg selection_name entry_name exit_name execution_name))
  else do
    let sel ← getSelection selection_name
    let ent ← getEntry entry_name
    let ex ← getExitRule exit_name
    let exm ← getExecutionModel execution_name
    let composite_name :=
      if nameTruthy name then name.getD ""
      else if default_name ≠ "" then default_name
      else selection_name ++ "_" ++ entry_name ++ "_" ++ exit_name ++ "_" ++ execution_name
    callCompositeInit
      [("selection", .strat sel), ("entry", .strat ent), ("exit_rule", .strat ex),
       ("execution_model", .strat exm), ("name", .str composite_name)]

/-- C2 (code bug): the blank-name half of the claim holds — with
`validate=True` and a blank role name, `build_custom_strategy` raises a
`ValueError` whose message marks exactly the missing layer(s) — but the
valid-names half fails: with four valid registered role names the factory
calls `CompositeStrategy(selection=…, entry=…, exit_rule=…,
execution_model=…, name=…)` while `CompositeStrategy.__init__`
(src/quant/strategies/composite/base.py) accepts only
`(selection, entry, exit_rule, name)`, so the call raises `TypeError`
instead of returning a four-layer composite, contradicting the factory's
own docstring. -/
theorem build_custom_strategy_code_bug :
    buildCustomStrategy "b1" "b1" "fixed" "close" none "custom_strategy" true =
      .error (.typeError
        "CompositeStrategy.__init__() got an unexpected keyword argument execution_model") ∧
    buildCustomStrategy "b1" "" "fixed" "close" none "custom_strategy" true =
      .error (.valueError (incompleteConfigMsg "b1" "" "fixed" "close")) ∧
    incompleteConfigMsg "b1" "" "fixed" "close" =
      "策略配置不完整！必须提供四层策略：\n" ++
      "  - selection: b1\n" ++ "  - entry: MISSING\n" ++
      "  - exit: fixed\n" ++ "  - execution: close" := by
  refine ⟨by decide, by decide, by decide⟩

/-! ## Positions, exit decisions and `AdvancedExit`
(src/quant/strategies/exit/advanced_exit.py)

A position dict carries the fields `Backtester._execute_entry` stores;
exit strategies may mutate it (trailing high-water mark, stop elevation),
so `evaluate` is embedded as returning the decision together with the
updated position. -/

structure Position where
  symbol : String
  shares : Int
  entry_price : ℚ
  stop_loss : Option ℚ
  target_price : Option ℚ
  entry_date : Int
  highest_price : Option ℚ
deriving DecidableEq, Inhabited

structure ExitBar where
  date : Int
  closePx : ℚ
deriving DecidableEq

structure ExitDecision where
  exit : Bool
  reason : String
  price : Option ℚ
deriving DecidableEq

structure AdvancedExitParams where
  trailing_pct : Option ℚ
  max_holding_days : Option Int
  lock_profit_after_rr : Option ℚ
deriving DecidableEq

def defaultAdvancedExitParams : AdvancedExitParams :=
  { trailing_pct := some (12/100), max_holding_days := some 40, lock_profit_after_rr := none }

/-- `if hp is None or price > hp: position['highest_price'] = price`. -/
def advUpdateHigh (pos : Position) (price : ℚ) : Position :=
  match pos.highest_price with
  | none => { pos with highest_price := some price }
  | some hp => if hp < price then { pos with highest_price := some price } else pos

/-- The local `hp` variable after the update above. -/
def advHp (pos : Position) (price : ℚ) : ℚ :=
  match pos.highest_price with
  | none => price
  | some hp => if hp < price then price else hp

/-- Optional break-even elevation: once `price - entry ≥ risk × rr`, raise
the stop to the entry price if it is below it. -/
def advLockElevate (pr : AdvancedExitParams) (pos : Position) (price : ℚ) : Position :=
  match pr.lock_profit_after_rr, pos.stop_loss with
  | some rr, some sl =>
      if 0 < pos.entry_price - sl ∧ (pos.entry_price - sl) * rr ≤ price - pos.entry_price then
        if sl < pos.entry_price then { pos with stop_loss := some pos.entry_price } else pos
      else pos
  | _, _ => pos

/-- Steps 2–4 of `AdvancedExit.evaluate` (after the stop-loss check and the
state updates): trailing stop, then take profit, then time stop. -/
def advTail (pr : AdvancedExitParams) (pos2 : Position) (hp price : ℚ) (bar : ExitBar) :
    ExitDecision × Position :=
  let trailingHit := match pr.trailing_pct with
    | some tp => decide (price ≤ hp * (1 - tp))
    | none => false
  if trailingHit then ({ exit := true, reason := "trailing_stop", price := some price }, pos2)
  else
    let tpHit := match pos2.target_price with
      | some t => decide (t ≤ price)
      | none => false
    if tpHit then ({ exit := true, reason := "take_profit", price := some price }, pos2)
    else
      let timeHit := match pr.max_holding_days with
        | some m => decide (m ≤ bar.date - pos2.entry_date)
        | none => false
      if timeHit then ({ exit := true, reason := "time_stop", price := some price }, pos2)
      else ({ exit := false, reason := "", price := none }, pos2)

/-- `AdvancedExit.evaluate`: priority order stop_loss → trailing stop →
take profit → time stop. -/
def advancedExitEvaluate (pr : AdvancedExitParams) (pos : Position) (bar : ExitBar) :
    ExitDecision × Position :=
  let price := bar.closePx
  let slHit := match pos.stop_loss with
    | some sl => decide (price ≤ sl)
    | none => false
  if slHit then ({ exit := true, reason := "stop_loss", price := some price }, pos)
  else
    let pos1 := advUpdateHigh pos price
    let pos2 := advLockElevate pr pos1 price
    advTail pr pos2 (advHp pos price) price bar

/-- C7: whenever the trailing-stop condition holds against the running high
(after the bar's high-water update) and the static stop-loss condition does
not, `AdvancedExit.evaluate` exits with reason `trailing_stop` — never
`time_stop` — regardless of the position's age, `max_holding_days`, target
price or lock-profit setting. -/
theorem advanced_exit_trailing_priority (pr : AdvancedExitParams) (pos : Position)
    (bar : ExitBar) (tp : ℚ)
    (htp : pr.trailing_pct = some tp)
    (htrail : bar.closePx ≤ advHp pos bar.closePx * (1 - tp))
    (hsl : ∀ sl, pos.stop_loss = some sl → ¬ bar.closePx ≤ sl) :
    (advancedExitEvaluate pr pos bar).1 =
      { exit := true, reason := "trailing_stop", price := some bar.closePx } := by
  unfold advancedExitEvaluate
  have hslHit :
      (match pos.stop_loss with
        | some sl => decide (bar.closePx ≤ sl)
        | none => false) = false := by
    cases h : pos.stop_loss with
    | none => rfl
    | some sl => simpa using hsl sl h
  simp only [advancedExitEvaluate, advTail, htp, hslHit]
  simp [htrail]

def c7Params : AdvancedExitParams :=
  { trailing_pct := some (5/100), max_holding_days := some 30, lock_profit_after_rr := none }

def c7Pos : Position :=
  { symbol := "600000", shares := 100, entry_price := 100, stop_loss := some 80,
    target_price := none, entry_date := 0, highest_price := some 105 }

def c7Bar : ExitBar := { date := 100, closePx := 95 }

/-- The spec's scenario: trailing 5%, running high 105, price 95, time
budget 30 days long exceeded — the exit reason is `trailing_stop`. -/
theorem advanced_exit_trailing_priority_witness :
    (advancedExitEvaluate c7Params c7Pos c7Bar).1 =
      { exit := true, reason := "trailing_stop", price := some 95 } :=
  advanced_exit_trailing_priority c7Params c7Pos c7Bar (5/100) rfl
    (by norm_num [advHp, c7Pos, c7Bar])
    (by
      intro sl h
      simp only [c7Pos, Option.some.injEq] at h
      subst h
      norm_num [c7Bar])

/-! ## Content pipeline records (src/rnotegen_v2/agents/writer_agent.py,
reviewer_agent.py)

`Article` is the generation-2 dataclass; all six fields are required
(no defaults) — which matters for the synchronizer's fallback path. -/

structure Article where
  title : String
  content : String
  hashtags : List String
  summary : String
  word_count : Int
  sources : List String
deriving DecidableEq, Inhabited

structure ReviewResult where
  score : ℚ
  dimensions : List (String × ℚ)
  feedback : String
  suggestions : List String
  overall_assessment : String
deriving DecidableEq, Inhabited

/-! ## RedNote publisher (src/rnotegen_v2/publisher/rednote.py)

Platform constraints are the constructor constants `max_title_length = 20`,
`max_content_length = 1000`, `max_hashtags = 10`.  Side effects are
modelled as an action trace; the formatted payload and the mock API
response (which depend on wall-clock time, an md5 hash and Python set
ordering) are abstracted behind `ApiEnv` — the claims below only concern
articles rejected before either happens. -/

def isPyWhitespace (c : Char) : Bool :=
  c = ' ' || c = '\t' || c = '\n' || c = '\r'

/-- Python `str.strip()` (over the whitespace characters appearing here). -/
def pyStrip (s : String) : String :=
  ⟨((s.data.dropWhile isPyWhitespace).reverse.dropWhile isPyWhitespace).reverse⟩

def titleTooLongMsg (a : Article) : String :=
  "Title too long: " ++ toString a.title.length ++ " > 20"

def contentTooLongMsg (a : Article) : String :=
  "Content too long: " ++ toString a.content.length ++ " > 1000"

def tooManyHashtagsMsg (a : Article) : String :=
  "Too many hashtags: " ++ toString a.hashtags.length ++ " > 10"

/-- `RedNotePublisher._validate_article`: collects one message per violated
constraint, in source order. -/
def validateArticle (a : Article) : List String :=
  (if 20 < a.title.length then [titleTooLongMsg a] else []) ++
  (if 1000 < a.content.length then [contentTooLongMsg a] else []) ++
  (if 10 < a.hashtags.length then [tooManyHashtagsMsg a] else []) ++
  (if pyStrip a.title = "" then ["Title is required"] else []) ++
  (if pyStrip a.content = "" then ["Content is required"] else [])

structure PublishConfig where
  platform : String := "rednote"
  auto_hashtags : Bool := true
  max_hashtags : Nat := 10
  image_required : Bool := true
  draft_mode : Bool := false
deriving DecidableEq

structure PublishResult where
  success : Bool
  post_id : Option String
  error_message : Option String
deriving DecidableEq

inductive PublishAction
  | validated
  | formattedContent
  | apiCall
deriving DecidableEq

structure ApiEnv where
  hasCredentials : Bool
  postId : String
deriving DecidableEq

/-- Python renders the error list inside the f-string as a list literal;
the rendering here drops only the per-element quotes. -/
def renderErrors (errs : List String) : String :=
  "[" ++ String.intercalate ", " errs ++ "]"

/-- `RedNotePublisher.publish_article`, with its effect trace.  An invalid
article short-circuits before `_format_for_rednote` and before
`_publish_to_api`. -/
def publishArticle (a : Article) (cfg : PublishConfig) (env : ApiEnv) :
    PublishResult × List PublishAction :=
  let errs := validateArticle a
  if errs ≠ [] then
    ({ success := false, post_id := none,
       error_message := some ("Article validation failed: " ++ renderErrors errs) },
     [.validated])
  else if cfg.draft_mode then
    ({ success := true, post_id := some ("draft_" ++ env.postId), error_message := none },
     [.validated, .formattedContent])
  else if env.hasCredentials then
    ({ success := true, post_id := some env.postId, error_message := none },
     [.validated, .formattedContent, .apiCall])
  else
    ({ success := false, post_id := none,
       error_message := some "Missing API credentials (app_id or app_secret)" },
     [.validated, .formattedContent, .apiCall])

/-- The five platform constraints of `_validate_article`. -/
def violatesConstraints (a : Article) : Prop :=
  20 < a.title.length ∨ 1000 < a.content.length ∨ 10 < a.hashtags.length ∨
  pyStrip a.title = "" ∨ pyStrip a.content = ""

/-- C8: every article violating a platform constraint is rejected with
`success = False`, an error message listing every violated rule, and
neither formatting nor the (mock) platform call is attempted. -/
theorem publisher_validation_rejects (a : Article) (cfg : PublishConfig) (env : ApiEnv)
    (h : violatesConstraints a) :
    (publishArticle a cfg env).1.success = false ∧
    (publishArticle a cfg env).1.error_message =
      some ("Article validation failed: " ++ renderErrors (validateArticle a)) ∧
    (publishArticle a cfg env).2 = [PublishAction.validated] ∧
    (20 < a.title.length → titleTooLongMsg a ∈ validateArticle a) ∧
    (1000 < a.content.length → contentTooLongMsg a ∈ validateArticle a) ∧
    (10 < a.hashtags.length → tooManyHashtagsMsg a ∈ validateArticle a) ∧
    (pyStrip a.title = "" → "Title is required" ∈ validateArticle a) ∧
    (pyStrip a.content = "" → "Content is required" ∈ validateArticle a) := by
  have hmem : ∀ hc : violatesConstraints a, ∃ m, m ∈ validateArticle a := by
    intro hc
    rcases hc with hc | hc | hc | hc | hc
    · exact ⟨titleTooLongMsg a, by simp [validateArticle, hc]⟩
    · exact ⟨contentTooLongMsg a, by simp [validateArticle, hc]⟩
    · exact ⟨tooManyHashtagsMsg a, by simp [validateArticle, hc]⟩
    · exact ⟨"Title is required", by simp [validateArticle, hc]⟩
    · exact ⟨"Content is required", by simp [validateArticle, hc]⟩
  obtain ⟨m, hm⟩ := hmem h
  have hne : validateArticle a ≠ [] := List.ne_nil_of_mem hm
  refine ⟨?_, ?_, ?_, ?_, ?_, ?_, ?_, ?_⟩
  · simp [publishArticle, hne]
  · simp [publishArticle, hne]
  · simp [publishArticle, hne]
  · intro hc; simp [validateArticle, hc]
  · intro hc; simp [validateArticle, hc]
  · intro hc; simp [validateArticle, hc]
  · intro hc; simp [validateArticle, hc]
  · intro hc; simp [validateArticle, hc]

def c8Article : Article :=
  { title := "aaaaaaaaaaaaaaaaaaaaaaaaa", content := "", hashtags := [],
    summary := "", word_count := 0, sources := [] }

def c8Env : ApiEnv := { hasCredentials := true, postId := "p1" }

theorem publisher_validation_rejects_witness :
    (publishArticle c8Article {} c8Env).1.success = false ∧
    (publishArticle c8Article {} c8Env).2 = [PublishAction.validated] ∧
    titleTooLongMsg c8Article ∈ validateArticle c8Article ∧
    "Content is required" ∈ validateArticle c8Article := by
  have h := publisher_validation_rejects c8Article {} c8Env
    (Or.inl (by decide))
  exact ⟨h.1, h.2.2.1, h.2.2.2.1 (by decide), h.2.2.2.2.2.2.2 (by decide)⟩

/-! ## Fact-check confidence heuristic
(src/rnotegen_v2/mcp_server/fact_check.py, FactCheckTool._calculate_confidence)

The regex patterns are literal-substring or digit-followed-by-token
searches; `re.search` existence is embedded directly over the character
list.  (`\d` is embedded as the ASCII digit class, and `.*` as any
character run — Python `.` skips newlines, which none of the heuristic
claims contain.) -/

def containsSub : List Char → List Char → Bool
  | [], pat => pat.isEmpty
  | c :: rest, pat => pat.isPrefixOf (c :: rest) || containsSub rest pat

/-- Existence of a match for `p.*q` (an occurrence of `p` with an
occurrence of `q` somewhere after it). -/
def containsThen : List Char → List Char → List Char → Bool
  | [], _, _ => false
  | c :: rest, p, q =>
      (p.isPrefixOf (c :: rest) && containsSub ((c :: rest).drop p.length) q) ||
      containsThen rest p q

/-- Existence of a match for `\d+q` (equivalently: a digit immediately
followed by `q`). -/
def digitThen : List Char → List Char → Bool
  | [], _ => false
  | c :: rest, q => (c.isDigit && q.isPrefixOf rest) || digitThen rest q

def reliableMatches (c : List Char) : List Bool :=
  [containsThen c "根据".data "报告".data,
   containsSub c "数据显示".data,
   containsSub c "研究表明".data,
   containsSub c "统计显示".data,
   containsThen c "官方".data "表示".data,
   digitThen c "%".data,
   digitThen c "所".data,
   digitThen c "年".data]

def unreliableMatches (c : List Char) : List Bool :=
  [containsSub c "据说".data,
   containsSub c "可能".data,
   containsSub c "似乎".data,
   containsSub c "大概".data,
   containsSub c "传闻".data]

def countTrue (l : List Bool) : Nat := l.count true

def clampConf (x : ℚ) : ℚ := max (1/10) (min (19/20) x)

/-- The accumulated confidence before clamping: base 0.5, +0.1 per matched
reliable pattern, −0.15 per matched unreliable pattern, +0.05 if any digit,
+0.05 if the claim exceeds 100 characters. -/
def rawConfidence (claim : String) : ℚ :=
  (1/2 : ℚ) + (countTrue (reliableMatches claim.data) : ℚ) * (1/10)
    - (countTrue (unreliableMatches claim.data) : ℚ) * (3/20)
    + (if claim.data.any Char.isDigit then (1/20 : ℚ) else 0)
    + (if 100 < claim.length then (1/20 : ℚ) else 0)

def calculateConfidence (claim : String) : ℚ := clampConf (rawConfidence claim)

lemma clampConf_mem (x : ℚ) : 1/10 ≤ clampConf x ∧ clampConf x ≤ 19/20 := by
  unfold clampConf
  constructor
  · exact le_max_left _ _
  · exact max_le (by norm_num) (min_le_left _ _)

lemma clampConf_lower (x b : ℚ) (hb : b ≤ 19/20) (hx : b ≤ x) : b ≤ clampConf x :=
  le_trans (le_min hb hx) (le_max_right _ _)

lemma clampConf_upper (x b : ℚ) (hb : 1/10 ≤ b) (hx : x ≤ b) : clampConf x ≤ b :=
  max_le hb (le_trans (min_le_right _ _) hx)

/-- C9: the clamped confidence always lies in [0.1, 0.95]; a neutral claim
(no pattern matched, no digit, ≤ 100 characters) scores exactly 0.5, and
appending a digit, a percentage token or a reliability phrase — any suffix
whose only effect is to switch on a digit/reliability feature — strictly
raises the confidence, while appending a hedge word strictly lowers it. -/
theorem factcheck_confidence_monotonicity
    (c sDigit sPct sRel sHedge : String)
    (hn1 : countTrue (reliableMatches c.data) = 0)
    (hn2 : countTrue (unreliableMatches c.data) = 0)
    (hn3 : c.data.any Char.isDigit = false)
    (hn4 : ¬ 100 < c.length)
    (hd1 : (c ++ sDigit).data.any Char.isDigit = true)
    (hd2 : countTrue (unreliableMatches (c ++ sDigit).data) = 0)
    (hp1 : 1 ≤ countTrue (reliableMatches (c ++ sPct).data))
    (hp2 : countTrue (unreliableMatches (c ++ sPct).data) = 0)
    (hr1 : 1 ≤ countTrue (reliableMatches (c ++ sRel).data))
    (hr2 : countTrue (unreliableMatches (c ++ sRel).data) = 0)
    (hh1 : 1 ≤ countTrue (unreliableMatches (c ++ sHedge).data))
    (hh2 : countTrue (reliableMatches (c ++ sHedge).data) = 0)
    (hh3 : (c ++ sHedge).data.any Char.isDigit = false)
    (hh4 : ¬ 100 < (c ++ sHedge).length) :
    (∀ x : String, 1/10 ≤ calculateConfidence x ∧ calculateConfidence x ≤ 19/20) ∧
    calculateConfidence c = 1/2 ∧
    calculateConfidence c < calculateConfidence (c ++ sDigit) ∧
    calculateConfidence c < calculateConfidence (c ++ sPct) ∧
    calculateConfidence c < calculateConfidence (c ++ sRel) ∧
    calculateConfidence (c ++ sHedge) < calculateConfidence c := by
  have hbase : calculateConfidence c = 1/2 := by
    unfold calculateConfidence rawConfidence clampConf
    rw [hn1, hn2, hn3, if_neg hn4]
    norm_num
  have lower : ∀ s : String,
      countTrue (unreliableMatches s.data) = 0 →
      (s.data.any Char.isDigit = true ∨ 1 ≤ countTrue (reliableMatches s.data)) →
      (11/20 : ℚ) ≤ calculateConfidence s := by
    intro s hu hfeat
    apply clampConf_lower _ _ (by norm_num)
    unfold rawConfidence
    rw [hu]
    have hrel0 : (0:ℚ) ≤ (countTrue (reliableMatches s.data) : ℚ) := Nat.cast_nonneg _
    have hlen : (0:ℚ) ≤ (if 100 < s.length then (1/20 : ℚ) else 0) := by positivity
    rcases hfeat with hdig | hrel
    · rw [hdig]
      simp only [if_true]
      linarith
    · have : (1:ℚ) ≤ (countTrue (reliableMatches s.data) : ℚ) := by
        exact_mod_cast hrel
      have hdig : (0:ℚ) ≤ (if s.data.any Char.isDigit then (1/20 : ℚ) else 0) := by positivity
      linarith
  refine ⟨fun x => clampConf_mem (rawConfidence x), hbase, ?_, ?_, ?_, ?_⟩
  · rw [hbase]
    exact lt_of_lt_of_le (by norm_num) (lower (c ++ sDigit) hd2 (Or.inl hd1))
  · rw [hbase]
    exact lt_of_lt_of_le (by norm_num) (lower (c ++ sPct) hp2 (Or.inr hp1))
  · rw [hbase]
    exact lt_of_lt_of_le (by norm_num) (lower (c ++ sRel) hr2 (Or.inr hr1))
  · rw [hbase]
    have hup : calculateConfidence (c ++ sHedge) ≤ 7/20 := by
      apply clampConf_upper _ _ (by norm_num)
      unfold rawConfidence
      rw [hh2, hh3, if_neg hh4]
      simp only [Bool.false_eq_true, if_false]
      have : (1:ℚ) ≤ (countTrue (unreliableMatches (c ++ sHedge).data) : ℚ) := by
        exact_mod_cast hh1
      linarith
    exact lt_of_le_of_lt hup (by norm_num)

theorem factcheck_confidence_witness :
    calculateConfidence "今天天气不错" < calculateConfidence ("今天天气不错" ++ "50%") ∧
    calculateConfidence ("今天天气不错" ++ "据说") < calculateConfidence "今天天气不错" := by
  have h := factcheck_confidence_monotonicity "今天天气不错" "5" "50%" "数据显示" "据说"
    (by decide) (by decide) (by decide) (by decide) (by decide) (by decide)
    (by decide) (by decide) (by decide) (by decide) (by decide) (by decide)
    (by decide) (by decide)
  exact ⟨h.2.2.2.1, h.2.2.2.2.2⟩

/-! ## Reviewer weighted total score
(src/rnotegen_v2/agents/reviewer_agent.py, _calculate_total_score and
review_content)

The evaluation-criteria table maps criterion name to weight; the parsed
review's `dimensions` maps dimension name to its score.  `round(x, 2)` is
embedded as rounding `100·x` to an integer (the tie-breaking convention
does not matter for the zero case). -/

def roundTo2 (q : ℚ) : ℚ := (round (q * 100) : ℚ) / 100

def calculateTotalScore (criteria dims : List (String × ℚ)) : ℚ :=
  let acc := criteria.foldl
    (fun (acc : ℚ × ℚ) kv =>
      match dims.lookup kv.1 with
      | some sc => (acc.1 + sc * kv.2, acc.2 + kv.2)
      | none => acc) (0, 0)
  if 0 < acc.2 then roundTo2 (acc.1 / acc.2) else roundTo2 0

/-- `_get_overall_assessment` banding. -/
def getOverallAssessment (excellent quality : ℚ) (score : ℚ) : String :=
  if excellent ≤ score then "优秀"
  else if quality ≤ score then "良好"
  else if 5 ≤ score then "一般"
  else "需要改进"

/-- The `ReviewResult` built by `review_content` from a parsed response. -/
def reviewContentResult (criteria : List (String × ℚ)) (excellent quality : ℚ)
    (dims : List (String × ℚ)) (feedback : String) (suggestions : List String) :
    ReviewResult :=
  let total := calculateTotalScore criteria dims
  { score := total, dimensions := dims, feedback := feedback,
    suggestions := suggestions,
    overall_assessment := getOverallAssessment excellent quality total }

/-- C10: when the parsed dimensions share no key with the criteria table,
the accumulated weight is zero, `_calculate_total_score` returns 0.0
(taking the guarded branch instead of dividing by zero), and
`review_content` propagates a `ReviewResult` whose score 0.0 lies outside
the 1-to-10 per-dimension band. -/
theorem reviewer_zero_weight_score (criteria dims : List (String × ℚ))
    (excellent quality : ℚ) (fb : String) (sg : List String)
    (hdisj : ∀ kv ∈ criteria, dims.lookup kv.1 = none) :
    calculateTotalScore criteria dims = 0 ∧
    (reviewContentResult criteria excellent quality dims fb sg).score = 0 ∧
    (reviewContentResult criteria excellent quality dims fb sg).score < 1 := by
  have hfold : criteria.foldl
      (fun (acc : ℚ × ℚ) kv =>
        match dims.lookup kv.1 with
        | some sc => (acc.1 + sc * kv.2, acc.2 + kv.2)
        | none => acc) (0, 0) = (0, 0) := by
    induction criteria with
    | nil => rfl
    | cons kv rest ih =>
        simp only [List.foldl_cons]
        rw [hdisj kv (List.mem_cons_self kv rest)]
        exact ih (fun kv2 h2 => hdisj kv2 (List.mem_cons_of_mem kv h2))
  have hscore : calculateTotalScore criteria dims = 0 := by
    unfold calculateTotalScore
    rw [hfold]
    norm_num [roundTo2]
  refine ⟨hscore, ?_, ?_⟩
  · simp [reviewContentResult, hscore]
  · simp [reviewContentResult, hscore]

def c10Criteria : List (String × ℚ) :=
  [("factual_accuracy", 2/10), ("originality", 2/10)]

def c10Dims : List (String × ℚ) := [("readability", 9)]

theorem reviewer_zero_weight_score_witness :
    calculateTotalScore c10Criteria c10Dims = 0 ∧
    (reviewContentResult c10Criteria (85/10) 7 c10Dims "" []).score < 1 := by
  have h := reviewer_zero_weight_score c10Criteria c10Dims (85/10) 7 "" []
    (by intro kv hkv; fin_cases hkv <;> rfl)
  exact ⟨h.1, h.2.2⟩

/-! ## Content synchronizer (src/rnotegen_v2/synchronizer.py)

`generate_content` runs up to `min(request.max_iterations, 3)`
generate→review cycles.  A cycle's writer/reviewer stage may raise (the
`except` logs and `continue`s); otherwise the best draft is tracked and the
loop breaks once the current review meets the quality threshold.  The
writer/reviewer pair is the external LLM boundary and is embedded as an
oracle `Nat → IterOutcome` giving each (1-based) cycle's outcome;
`generation_time` (wall clock) is omitted.  After the loop, when no best
article exists the code builds a fallback `Article(title=…, content=…,
summary=…, hashtags=…, word_count=…)` — omitting the dataclass's required
`sources` field, so that construction raises `TypeError`; the Python
keyword-call is modelled against the field list as in the factory above. -/

inductive IterOutcome
  | error
  | ok (article : Article) (review : ReviewResult)
deriving DecidableEq

/-- Did the cycle produce an article with a strictly positive score? -/
def okPos : IterOutcome → Bool
  | .error => false
  | .ok _ r => decide (0 < r.score)

structure SyncState where
  iterations : Nat
  bestArticle : Option Article
  bestReview : Option ReviewResult
  bestScore : ℚ
deriving DecidableEq

def initSyncState : SyncState :=
  { iterations := 0, bestArticle := none, bestReview := none, bestScore := 0 }

/-- `if review_result.score > best_score:` — strictly better only. -/
def trackBest (s : SyncState) (a : Article) (r : ReviewResult) : SyncState :=
  if s.bestScore < r.score then
    { s with bestArticle := some a, bestReview := some r, bestScore := r.score }
  else s

def syncLoop (threshold : ℚ) (oc : Nat → IterOutcome) : Nat → SyncState → SyncState
  | 0, s => s
  | fuel + 1, s =>
      let s1 := { s with iterations := s.iterations + 1 }
      match oc s1.iterations with
      | .error => syncLoop threshold oc fuel s1
      | .ok a r =>
          let s2 := trackBest s1 a r
          if threshold ≤ r.score then s2
          else syncLoop threshold oc fuel s2

def articleFields : List String :=
  ["title", "content", "hashtags", "summary", "word_count", "sources"]

def syncFallbackKwargs : List String :=
  ["title", "content", "summary", "hashtags", "word_count"]

/-- The fallback `Article(...)` call of the failed branch, checked against
the dataclass's required fields. -/
def callArticleFallback : Except PyError Article :=
  match articleFields.find? (fun f => !(syncFallbackKwargs.contains f)) with
  | some f =>
      .error (.typeError ("Article.__init__() missing 1 required positional argument: " ++ f))
  | none =>
      .ok { title := "内容生成失败", content := "抱歉，暂时无法生成高质量内容，请稍后重试。",
            hashtags := ["技术问题"], summary := "内容生成过程中遇到技术问题",
            word_count := 15, sources := [] }

def syncFallbackReview : ReviewResult :=
  { score := 0, dimensions := [], feedback := "内容生成失败",
    suggestions := ["请检查系统配置"], overall_assessment := "失败" }

structure ContentOutput where
  article : Article
  review_result : ReviewResult
  iterations : Nat
  final_score : ℚ
  status : String
deriving DecidableEq

def syncMaxIterations : Nat := 3

def syncRun (threshold : ℚ) (reqMax : Nat) (oc : Nat → IterOutcome) : SyncState :=
  syncLoop threshold oc (min reqMax syncMaxIterations) initSyncState

/-- `ContentSynchronizer.generate_content`: exceptions propagate as
`.error` (the outer handler logs and re-raises). -/
def generateContent (threshold : ℚ) (reqMax : Nat) (oc : Nat → IterOutcome) :
    Except PyError ContentOutput :=
  let s := syncRun threshold reqMax oc
  match s.bestArticle with
  | none =>
      match callArticleFallback with
      | .error e => .error e
      | .ok a =>
          .ok { article := a, review_result := syncFallbackReview,
                iterations := s.iterations, final_score := 0, status := "failed" }
  | some a =>
      if threshold ≤ s.bestScore then
        .ok { article := a, review_result := s.bestReview.getD syncFallbackReview,
              iterations := s.iterations, final_score := s.bestScore, status := "success" }
      else
        .ok { article := a, review_result := s.bestReview.getD syncFallbackReview,
              iterations := s.iterations, final_score := s.bestScore, status := "timeout" }

lemma trackBest_iterations (s : SyncState) (a : Article) (r : ReviewResult) :
    (trackBest s a r).iterations = s.iterations := by
  unfold trackBest
  split <;> rfl

/-- The tracked best state: at most one of `bestArticle = none, bestScore
= 0` and `bestArticle` present with positive score, starting from the
former. -/
def SyncInv (s : SyncState) : Prop :=
  (s.bestArticle = none ∧ s.bestScore = 0) ∨
  (∃ a, s.bestArticle = some a ∧ 0 < s.bestScore)

lemma trackBest_inv (s : SyncState) (a : Article) (r : ReviewResult) (h : SyncInv s) :
    SyncInv (trackBest s a r) := by
  unfold trackBest
  rcases h with ⟨h1, h2⟩ | ⟨a0, h1, h2⟩
  · split
    · right
      exact ⟨a, rfl, by rw [h2] at *; assumption⟩
    · left
      exact ⟨h1, h2⟩
  · split
    · right
      exact ⟨a, rfl, lt_trans h2 (by assumption)⟩
    · right
      exact ⟨a0, h1, h2⟩

lemma trackBest_none_iff (s : SyncState) (a : Article) (r : ReviewResult) (h : SyncInv s) :
    ((trackBest s a r).bestArticle = none ↔
      s.bestArticle = none ∧ decide (0 < r.score) = false) := by
  unfold trackBest
  rcases h with ⟨h1, h2⟩ | ⟨a0, h1, h2⟩
  · rw [h2]
    split
    · simp only [h1]
      constructor
      · intro hc
        exact absurd hc (by simp)
      · rintro ⟨_, hd⟩
        simp only [decide_eq_false_iff_not] at hd
        exact absurd (by assumption) hd
    · simp only [h1, true_and, true_iff]
      simpa using (by assumption : ¬ (0:ℚ) < r.score)
  · split <;> simp [h1]

@[simp] lemma withIter_iterations (s : SyncState) (n : Nat) :
    ({ s with iterations := n } : SyncState).iterations = n := rfl

@[simp] lemma withIter_bestArticle (s : SyncState) (n : Nat) :
    ({ s with iterations := n } : SyncState).bestArticle = s.bestArticle := rfl

@[simp] lemma withIter_bestReview (s : SyncState) (n : Nat) :
    ({ s with iterations := n } : SyncState).bestReview = s.bestReview := rfl

@[simp] lemma withIter_bestScore (s : SyncState) (n : Nat) :
    ({ s with iterations := n } : SyncState).bestScore = s.bestScore := rfl

lemma syncLoop_iterations_ge (threshold : ℚ) (oc : Nat → IterOutcome) :
    ∀ (fuel : Nat) (s : SyncState),
      s.iterations ≤ (syncLoop threshold oc fuel s).iterations := by
  intro fuel
  induction fuel with
  | zero => intro s; exact le_refl _
  | succ fuel ih =>
      intro s
      simp only [syncLoop]
      cases oc (s.iterations + 1) with
      | error =>
          dsimp only
          have h := ih { s with iterations := s.iterations + 1 }
          simp only [withIter_iterations] at h
          omega
      | ok a r =>
          dsimp only
          split
          · have h := trackBest_iterations { s with iterations := s.iterations + 1 } a r
            simp only [withIter_iterations] at h
            omega
          · have h := ih (trackBest { s with iterations := s.iterations + 1 } a r)
            have h2 := trackBest_iterations { s with iterations := s.iterations + 1 } a r
            simp only [withIter_iterations] at h2
            rw [h2] at h
            omega

lemma syncLoop_iterations_le (threshold : ℚ) (oc : Nat → IterOutcome) :
    ∀ (fuel : Nat) (s : SyncState),
      (syncLoop threshold oc fuel s).iterations ≤ s.iterations + fuel := by
  intro fuel
  induction fuel with
  | zero => intro s; exact le_of_eq rfl
  | succ fuel ih =>
      intro s
      simp only [syncLoop]
      cases oc (s.iterations + 1) with
      | error =>
          dsimp only
          have h := ih { s with iterations := s.iterations + 1 }
          simp only [withIter_iterations] at h
          omega
      | ok a r =>
          dsimp only
          split
          · have h := trackBest_iterations { s with iterations := s.iterations + 1 } a r
            simp only [withIter_iterations] at h
            omega
          · have h := ih (trackBest { s with iterations := s.iterations + 1 } a r)
            have h2 := trackBest_iterations { s with iterations := s.iterations + 1 } a r
            simp only [withIter_iterations] at h2
            rw [h2] at h
            omega

/-- Master induction: the loop's final `bestArticle` is `none` exactly when
it was `none` at the start and no consulted cycle produced a
positive-score article; the invariant is preserved. -/
lemma syncLoop_none_iff (threshold : ℚ) (oc : Nat → IterOutcome) :
    ∀ (fuel : Nat) (s : SyncState), SyncInv s →
      SyncInv (syncLoop threshold oc fuel s) ∧
      ((syncLoop threshold oc fuel s).bestArticle = none ↔
        (s.bestArticle = none ∧
          ∀ k, s.iterations < k → k ≤ (syncLoop threshold oc fuel s).iterations →
            okPos (oc k) = false)) := by
  intro fuel
  induction fuel with
  | zero =>
      intro s hinv
      refine ⟨hinv, ?_⟩
      simp only [syncLoop]
      constructor
      · intro h
        exact ⟨h, fun k h1 h2 => absurd (lt_of_lt_of_le h1 h2) (lt_irrefl _)⟩
      · rintro ⟨h, _⟩
        exact h
  | succ fuel ih =>
      intro s hinv
      simp only [syncLoop]
      have hinv1 : SyncInv { s with iterations := s.iterations + 1 } := by
        rcases hinv with h | ⟨a0, h⟩
        · exact Or.inl h
        · exact Or.inr ⟨a0, h⟩
      cases hoc : oc (s.iterations + 1) with
      | error =>
          dsimp only
          obtain ⟨hinvR, hiffR⟩ := ih _ hinv1
          refine ⟨hinvR, ?_⟩
          rw [hiffR]
          simp only [withIter_iterations, withIter_bestArticle]
          have hge := syncLoop_iterations_ge threshold oc fuel
            { s with iterations := s.iterations + 1 }
          simp only [withIter_iterations] at hge
          constructor
          · rintro ⟨h1, h2⟩
            refine ⟨h1, fun k hk1 hk2 => ?_⟩
            rcases Nat.lt_or_ge (s.iterations + 1) k with hk | hk
            · exact h2 k hk hk2
            · have hkeq : k = s.iterations + 1 := by omega
              rw [hkeq, hoc]
              rfl
          · rintro ⟨h1, h2⟩
            exact ⟨h1, fun k hk1 hk2 => h2 k (by omega) hk2⟩
      | ok a r =>
          dsimp only
          have hinv2 := trackBest_inv _ a r hinv1
          have hnone2 := trackBest_none_iff _ a r hinv1
          simp only [withIter_bestArticle] at hnone2
          have hit2 := trackBest_iterations { s with iterations := s.iterations + 1 } a r
          simp only [withIter_iterations] at hit2
          split
          · -- threshold met: the loop breaks with state `trackBest s1 a r`
            refine ⟨hinv2, ?_⟩
            rw [hnone2]
            constructor
            · rintro ⟨h1, h2⟩
              refine ⟨h1, fun k hk1 hk2 => ?_⟩
              rw [hit2] at hk2
              have hkeq : k = s.iterations + 1 := by omega
              rw [hkeq, hoc]
              simpa [okPos] using h2
            · rintro ⟨h1, h2⟩
              refine ⟨h1, ?_⟩
              have hme := h2 (s.iterations + 1) (by omega) (by omega)
              rw [hoc] at hme
              simpa [okPos] using hme
          · -- threshold not met: recurse on `trackBest s1 a r`
            obtain ⟨hinvR, hiffR⟩ := ih _ hinv2
            refine ⟨hinvR, ?_⟩
            rw [hiffR, hnone2, hit2]
            have hge := syncLoop_iterations_ge threshold oc fuel
              (trackBest { s with iterations := s.iterations + 1 } a r)
            rw [hit2] at hge
            constructor
            · rintro ⟨⟨h1, h2⟩, h3⟩
              refine ⟨h1, fun k hk1 hk2 => ?_⟩
              rcases Nat.lt_or_ge (s.iterations + 1) k with hk | hk
              · exact h3 k hk hk2
              · have hkeq : k = s.iterations + 1 := by omega
                rw [hkeq, hoc]
                simpa [okPos] using h2
            · rintro ⟨h1, h2⟩
              have hme := h2 (s.iterations + 1) (by omega) (by omega)
              rw [hoc] at hme
              refine ⟨⟨h1, by simpa [okPos] using hme⟩,
                fun k hk1 hk2 => h2 k (by omega) hk2⟩

lemma callArticleFallback_eq :
    callArticleFallback =
      .error (.typeError "Article.__init__() missing 1 required positional argument: sources") :=
  rfl

/-- C4 (amended): `generate_content` consults the writer/reviewer at most
`min(request.max_iterations, 3)` times; the tracked best draft is replaced
only on a strictly higher score (ties do not replace); the failure branch
is reached exactly when no executed cycle produced an article with a
strictly positive review score, and on it the fallback `Article(...)` call
omits the required `sources` field, so the call raises `TypeError` instead
of returning a `ContentOutput` with status `'failed'`; otherwise the
returned `ContentOutput` carries the best article, `final_score` equal to
the best score, and status `'success'` when that score reaches the quality
threshold, `'timeout'` when it does not. -/
theorem synchronizer_termination_and_status (threshold : ℚ) (reqMax : Nat)
    (oc : Nat → IterOutcome) :
    (syncRun threshold reqMax oc).iterations ≤ min reqMax syncMaxIterations ∧
    (∀ st a r, r.score ≤ st.bestScore → trackBest st a r = st) ∧
    ((syncRun threshold reqMax oc).bestArticle = none ↔
      ∀ k, 1 ≤ k → k ≤ (syncRun threshold reqMax oc).iterations → okPos (oc k) = false) ∧
    ((syncRun threshold reqMax oc).bestArticle = none →
      generateContent threshold reqMax oc =
        .error (.typeError "Article.__init__() missing 1 required positional argument: sources")) ∧
    (∀ a, (syncRun threshold reqMax oc).bestArticle = some a →
      generateContent threshold reqMax oc =
        .ok { article := a,
              review_result := (syncRun threshold reqMax oc).bestReview.getD syncFallbackReview,
              iterations := (syncRun threshold reqMax oc).iterations,
              final_score := (syncRun threshold reqMax oc).bestScore,
              status := if threshold ≤ (syncRun threshold reqMax oc).bestScore
                        then "success" else "timeout" }) := by
  have hinit : SyncInv initSyncState := Or.inl ⟨rfl, rfl⟩
  obtain ⟨hinvR, hiffR⟩ := syncLoop_none_iff threshold oc (min reqMax syncMaxIterations)
    initSyncState hinit
  refine ⟨?_, ?_, ?_, ?_, ?_⟩
  · have := syncLoop_iterations_le threshold oc (min reqMax syncMaxIterations) initSyncState
    simpa [syncRun, initSyncState] using this
  · intro st a r hle
    unfold trackBest
    rw [if_neg (not_lt.mpr hle)]
  · unfold syncRun
    rw [hiffR]
    constructor
    · rintro ⟨_, h2⟩
      exact fun k hk1 hk2 => h2 k (by simpa [initSyncState] using hk1) hk2
    · intro h
      exact ⟨rfl, fun k hk1 hk2 => h k (by simpa [initSyncState] using hk1) hk2⟩
  · intro hnone
    simp only [generateContent]
    rw [hnone, callArticleFallback_eq]
  · intro a ha
    simp only [generateContent]
    rw [ha]
    dsimp only
    split
    next _ => rfl
    next _ => rfl

def c4Article : Article :=
  { title := "题", content := "正文", hashtags := [], summary := "摘",
    word_count := 2, sources := [] }

def c4ZeroReview : ReviewResult :=
  { score := 0, dimensions := [], feedback := "", suggestions := [],
    overall_assessment := "" }

def c4Oc : Nat → IterOutcome := fun _ => .ok c4Article c4ZeroReview

/-- C4 counterexample: a run whose single cycle DID produce an article
(with review score 0) still reaches the failure branch — `best_article`
is only replaced on a strictly positive score — and there the fallback
`Article(...)` raises `TypeError`; the call neither returns status
`'timeout'`/`'success'` nor a `ContentOutput` with status `'failed'`. -/
theorem synchronizer_claim_counterexample :
    c4Oc 1 = .ok c4Article c4ZeroReview ∧
    generateContent 7 1 c4Oc =
      .error (.typeError "Article.__init__() missing 1 required positional argument: sources") := by
  exact ⟨rfl, rfl⟩

/-! ## Backtester (src/quant/framework/backtester.py, framework/portfolio.py)

The simulation state bundles the `Portfolio` ledger (cash, the open
positions dict as an insertion-ordered association list, the snapshot
history) with the backtester's trade log and pending-entry queue.  The
market data loaded for a day maps each symbol to its cached frame,
embedded as a partial map from trade date to that day's bar (`dt in
df.index` = the map is defined there).  The composed strategy's
`generate_entries` / `evaluate_exit` and the position sizer are the
pluggable boundary and enter as function parameters; `evaluate_exit` may
mutate the position dict, so it returns the updated position. -/

structure BTParams where
  max_positions : Int
  commission_rate : ℚ
  slippage_bp : ℚ
deriving DecidableEq

def defaultBTParams : BTParams :=
  { max_positions := 5, commission_rate := 5/10000, slippage_bp := 5 }

structure MBar where
  openPx : ℚ
  closePx : ℚ
deriving DecidableEq

abbrev DFrame := Int → Option MBar

abbrev MarketData := List (String × DFrame)

structure Trade where
  date : Int
  symbol : String
  action : String
  price : ℚ
  shares : Int
  pnl : ℚ
  commission : ℚ
  holding_days : Option Int
  reason : String
deriving DecidableEq, Inhabited

structure Snap where
  date : Int
  session : String
  total_value : ℚ
  cash : ℚ
  positions : Nat
deriving DecidableEq

structure BTState where
  cash : ℚ
  positions : List (String × Position)
  trades : List Trade
  pending : List EntrySignal
  history : List Snap
deriving DecidableEq

def applySlippage (p : BTParams) (raw_price : ℚ) (side : String) : ℚ :=
  let adj := raw_price * (p.slippage_bp / 10000)
  raw_price + (if side = "BUY" then adj else -adj)

def applyCommission (p : BTParams) (gross : ℚ) : ℚ := gross * p.commission_rate

/-- `equal_weight_sizer`: `cash / max(1, remaining_slots) // price`,
truncated to whole shares (the embedding's division by a zero price yields
0 where Python would error; prices are positive throughout). -/
def equalWeightSizer (cash : ℚ) (remaining_slots : Int) (price : ℚ) : Int :=
  let alloc := cash / ((max 1 remaining_slots : Int) : ℚ)
  Int.floor (alloc / price)

/-- `Backtester._execute_entry`.  Skips (state unchanged) when the symbol
is already held, the date is missing from the frame, no slots remain, the
sizer returns no shares, or the total cost exceeds cash; otherwise debits
cash, opens the position (seeding `highest_price`) and appends the BUY
trade.  (Our frames always carry an `open` column.) -/
def executeEntry (p : BTParams) (sizer : ℚ → Int → ℚ → Int) (dt : Int) (sym : String)
    (df : DFrame) (sig : EntrySignal) (price_type : String) (st : BTState)
    (remaining_slots : Int) : BTState × Int :=
  if (st.positions.lookup sym).isSome then (st, remaining_slots)
  else
    match df dt with
    | none => (st, remaining_slots)
    | some bar =>
        if remaining_slots ≤ 0 then (st, remaining_slots)
        else
          let raw_price := if price_type = "open" then bar.openPx else bar.closePx
          let exec_price := applySlippage p raw_price "BUY"
          let shares := sizer st.cash remaining_slots exec_price
          if shares ≤ 0 then (st, remaining_slots)
          else
            let gross_cost := (shares : ℚ) * exec_price
            let commission := applyCommission p gross_cost
            let total_cost := gross_cost + commission
            if st.cash < total_cost then (st, remaining_slots)
            else
              ({ st with
                  cash := st.cash - total_cost
                  positions := st.positions ++ [(sym,
                    { symbol := sym, shares := shares, entry_price := exec_price,
                      stop_loss := some sig.stop_loss,
                      target_price := some sig.target_price,
                      entry_date := dt, highest_price := some exec_price })]
                  trades := st.trades ++ [{
                    date := dt, symbol := sym, action := "BUY", price := exec_price,
                    shares := shares, pnl := 0, commission := commission,
                    holding_days := none,
                    reason := sig.metaExecution.getD "entry" }] },
              remaining_slots - 1)

/-- `decision.price or bar_close` under Python truthiness (`None` and
`0.0` both fall back to the bar close), then SELL slippage. -/
def decisionExecPrice (p : BTParams) (dec : ExitDecision) (bar_close : ℚ) : ℚ :=
  applySlippage p
    (match dec.price with
     | none => bar_close
     | some q => if q = 0 then bar_close else q) "SELL"

/-- The body of `_process_exits`: walk the open positions; with a bar for
the day, update the trailing high, consult the exit rule, and on an exit
credit cash, append the SELL trade and drop the position (otherwise keep
the possibly-mutated position). -/
def exitScan (p : BTParams) (evalExit : Position → ExitBar → ExitDecision × Position)
    (dt : Int) (md : MarketData) :
    List (String × Position) → ℚ → List Trade → List (String × Position) × ℚ × List Trade
  | [], cash, trades => ([], cash, trades)
  | (sym, pos) :: rest, cash, trades =>
      match (md.lookup sym).bind (fun df => df dt) with
      | none =>
          let r := exitScan p evalExit dt md rest cash trades
          ((sym, pos) :: r.1, r.2)
      | some bar =>
          let pos1 := advUpdateHigh pos bar.closePx
          let dp := evalExit pos1 { date := dt, closePx := bar.closePx }
          if dp.1.exit then
            let exec_price := decisionExecPrice p dp.1 bar.closePx
            let gross := exec_price * (dp.2.shares : ℚ)
            let commission := applyCommission p gross
            let pnl := (exec_price - dp.2.entry_price) * (dp.2.shares : ℚ) - commission
            let t : Trade := {
              date := dt, symbol := sym, action := "SELL", price := exec_price,
              shares := dp.2.shares, pnl := pnl, commission := commission,
              holding_days := some (dt - dp.2.entry_date), reason := dp.1.reason }
            exitScan p evalExit dt md rest (cash + gross - commission) (trades ++ [t])
          else
            let r := exitScan p evalExit dt md rest cash trades
            ((sym, dp.2) :: r.1, r.2)

def processExits (p : BTParams) (evalExit : Position → ExitBar → ExitDecision × Position)
    (st : BTState) (dt : Int) (md : MarketData) : BTState :=
  let r := exitScan p evalExit dt md st.positions st.cash st.trades
  { st with positions := r.1, cash := r.2.1, trades := r.2.2 }

/-- The signal loop of `_process_entries`: future-dated signals are queued
as pending, others execute immediately; the loop breaks once slots run
out. -/
def entryScan (p : BTParams) (sizer : ℚ → Int → ℚ → Int) (dt : Int) (md : MarketData) :
    List EntrySignal → BTState → Int → BTState
  | [], st, _ => st
  | sig :: rest, st, slots =>
      match md.lookup sig.symbol with
      | none => entryScan p sizer dt md rest st slots
      | some df =>
          let ept := sig.exec_price_type.getD "close"
          if sig.exec_date.isSome ∧ sig.exec_date ≠ some dt then
            entryScan p sizer dt md rest
              { st with pending := st.pending ++ [{ sig with exec_price_type := some ept }] }
              slots
          else
            let r := executeEntry p sizer dt sig.symbol df sig ept st slots
            if r.2 ≤ 0 then r.1
            else entryScan p sizer dt md rest r.1 r.2

def processEntries (p : BTParams) (sizer : ℚ → Int → ℚ → Int)
    (genEntries : MarketData → List EntrySignal) (st : BTState) (dt : Int)
    (md : MarketData) : BTState :=
  let remaining_slots := p.max_positions - (st.positions.length : Int)
  if remaining_slots ≤ 0 then st
  else entryScan p sizer dt md (genEntries md) st remaining_slots

/-- The queue walk of `_process_pending_entries`: signals whose day has
come and whose data is present are handed to `_execute_entry` (and leave
the queue whether or not the entry executed); the rest stay queued. -/
def pendingScan (p : BTParams) (sizer : ℚ → Int → ℚ → Int) (dt : Int) (md : MarketData) :
    List EntrySignal → BTState → Int → BTState × Int × List EntrySignal
  | [], st, slots => (st, slots, [])
  | sig :: rest, st, slots =>
      if slots ≤ 0 then
        let r := pendingScan p sizer dt md rest st slots
        (r.1, r.2.1, sig :: r.2.2)
      else if sig.exec_date ≠ some dt then
        let r := pendingScan p sizer dt md rest st slots
        (r.1, r.2.1, sig :: r.2.2)
      else
        match md.lookup sig.symbol with
        | none =>
            let r := pendingScan p sizer dt md rest st slots
            (r.1, r.2.1, sig :: r.2.2)
        | some df =>
            let r := executeEntry p sizer dt sig.symbol df sig
              (sig.exec_price_type.getD "open") st slots
            pendingScan p sizer dt md rest r.1 r.2

def processPendingEntries (p : BTParams) (sizer : ℚ → Int → ℚ → Int) (st : BTState)
    (dt : Int) (md : MarketData) : BTState :=
  if st.pending = [] then st
  else
    let remaining_slots := p.max_positions - (st.positions.length : Int)
    let r := pendingScan p sizer dt md st.pending st remaining_slots
    { r.1 with pending := r.2.2 }

/-- `Portfolio.mark_to_market` via `mark_session(dt, 'close', prices)`
with each present symbol's close. -/
def markToMarket (st : BTState) (dt : Int) (md : MarketData) : BTState :=
  let total := st.cash + (st.positions.map (fun kv =>
    match (md.lookup kv.1).bind (fun df => (df dt).map (fun b => b.closePx)) with
    | some px => px * (kv.2.shares : ℚ)
    | none => 0)).sum
  { st with history := st.history ++ [{
      date := dt, session := "close", total_value := total, cash := st.cash,
      positions := st.positions.length }] }

/-- One day of `Backtester.run`: pending T+1 entries, then exits, then new
entry signals, then the close-session snapshot. -/
def runStep (p : BTParams) (sizer : ℚ → Int → ℚ → Int)
    (genEntries : MarketData → List EntrySignal)
    (evalExit : Position → ExitBar → ExitDecision × Position)
    (loadUniverse : Int → MarketData) (st : BTState) (dt : Int) : BTState :=
  let md := loadUniverse dt
  let st1 := processPendingEntries p sizer st dt md
  let st2 := processExits p evalExit st1 dt md
  let st3 := processEntries p sizer genEntries st2 dt md
  markToMarket st3 dt md

def initBTState (initial_capital : ℚ) : BTState :=
  { cash := initial_capital, positions := [], trades := [], pending := [], history := [] }

def runBacktest (p : BTParams) (sizer : ℚ → Int → ℚ → Int)
    (genEntries : MarketData → List EntrySignal)
    (evalExit : Position → ExitBar → ExitDecision × Position)
    (loadUniverse : Int → MarketData) (dates : List Int) (initial_capital : ℚ) : BTState :=
  dates.foldl (runStep p sizer genEntries evalExit loadUniverse) (initBTState initial_capital)

/-- Every SELL in the log has a matching earlier BUY: checked left to
right, carrying the earlier trades as `prior`. -/
def sellOk (prior : List Trade) (t : Trade) : Bool :=
  !(decide (t.action = "SELL")) ||
  prior.any (fun b => decide (b.action = "BUY") && decide (b.symbol = t.symbol))

def tradesMatched (prior : List Trade) : List Trade → Bool
  | [] => true
  | t :: rest => sellOk prior t && tradesMatched (prior ++ [t]) rest

lemma sellOk_append (pre more : List Trade) (t : Trade) (h : sellOk pre t = true) :
    sellOk (pre ++ more) t = true := by
  simp only [sellOk, Bool.or_eq_true] at h ⊢
  rcases h with h | h
  · exact Or.inl h
  · right
    simp only [List.any_append, Bool.or_eq_true]
    exact Or.inl h

lemma tradesMatched_append (a b : List Trade) : ∀ pre,
    tradesMatched pre (a ++ b) =
      (tradesMatched pre a && tradesMatched (pre ++ a) b) := by
  induction a with
  | nil => intro pre; simp [tradesMatched]
  | cons t a ih =>
      intro pre
      simp only [List.cons_append, tradesMatched, List.append_eq, ih (pre ++ [t]),
        Bool.and_assoc, List.append_assoc, List.singleton_append, List.nil_append]

lemma tradesMatched_of_all (l : List Trade) : ∀ prior,
    (∀ t ∈ l, sellOk prior t = true) → tradesMatched prior l = true := by
  induction l with
  | nil => intro prior _; rfl
  | cons t l ih =>
      intro prior h
      simp only [tradesMatched, Bool.and_eq_true]
      refine ⟨h t (List.mem_cons_self t l), ih (prior ++ [t]) ?_⟩
      intro t2 ht2
      exact sellOk_append prior [t] t2 (h t2 (List.mem_cons_of_mem t ht2))

lemma buy_sellOk (prior : List Trade) (t : Trade) (h : t.action = "BUY") :
    sellOk prior t = true := by
  simp [sellOk, h]

lemma sell_sellOk (prior : List Trade) (t : Trade)
    (hb : ∃ b ∈ prior, b.action = "BUY" ∧ b.symbol = t.symbol) :
    sellOk prior t = true := by
  obtain ⟨b, hmem, h1, h2⟩ := hb
  simp only [sellOk, Bool.or_eq_true, List.any_eq_true]
  right
  exact ⟨b, hmem, by simp [h1, h2]⟩

lemma lookup_none_not_mem (l : List (String × Position)) (sym : String)
    (h : l.lookup sym = none) : sym ∉ l.map Prod.fst := by
  induction l with
  | nil => simp
  | cons kv rest ih =>
      cases hk : (sym == kv.1) with
      | true => simp [List.lookup, hk] at h
      | false =>
          simp only [List.lookup, hk] at h
          simp only [List.map_cons, List.mem_cons]
          rintro (heq | hmem)
          · rw [heq] at hk
            simp at hk
          · exact ih h hmem

/-- `_execute_entry` either leaves the state untouched or — when the symbol
is unheld and a slot remains — appends exactly one position for the symbol
and one BUY trade, debiting cash and consuming one slot. -/
lemma executeEntry_spec (p : BTParams) (sizer : ℚ → Int → ℚ → Int) (dt : Int)
    (sym : String) (df : DFrame) (sig : EntrySignal) (ptype : String) (st : BTState)
    (slots : Int) :
    executeEntry p sizer dt sym df sig ptype st slots = (st, slots) ∨
    (st.positions.lookup sym = none ∧ 0 < slots ∧
      ∃ pos t st', t.action = "BUY" ∧ t.symbol = sym ∧
        executeEntry p sizer dt sym df sig ptype st slots = (st', slots - 1) ∧
        st'.positions = st.positions ++ [(sym, pos)] ∧
        st'.trades = st.trades ++ [t] ∧
        st'.pending = st.pending) := by
  unfold executeEntry
  by_cases h1 : (st.positions.lookup sym).isSome = true
  · rw [if_pos h1]
    exact Or.inl rfl
  · rw [if_neg h1]
    have h1' : st.positions.lookup sym = none := by
      cases hl : st.positions.lookup sym with
      | none => rfl
      | some v => exact absurd (by rw [hl]; rfl) h1
    split
    · exact Or.inl rfl
    · by_cases h2 : slots ≤ 0
      · rw [if_pos h2]
        exact Or.inl rfl
      · rw [if_neg h2]
        by_cases hpt : ptype = "open"
        · rw [if_pos hpt]
          dsimp only
          split
          · exact Or.inl rfl
          · split
            · exact Or.inl rfl
            · exact Or.inr ⟨h1', by omega, _, _, _, rfl, rfl, rfl, rfl, rfl, rfl⟩
        · rw [if_neg hpt]
          dsimp only
          split
          · exact Or.inl rfl
          · split
            · exact Or.inl rfl
            · exact Or.inr ⟨h1', by omega, _, _, _, rfl, rfl, rfl, rfl, rfl, rfl⟩

/-- The structural invariants of the simulation state: one position per
symbol, every open position backed by a BUY trade, every SELL trade
preceded by a matching BUY. -/
def BTCore (st : BTState) : Prop :=
  (st.positions.map Prod.fst).Nodup ∧
  (∀ kv ∈ st.positions, ∃ t ∈ st.trades, t.action = "BUY" ∧ t.symbol = kv.1) ∧
  tradesMatched [] st.trades = true

lemma executeEntry_core (p : BTParams) (sizer : ℚ → Int → ℚ → Int) (dt : Int)
    (sym : String) (df : DFrame) (sig : EntrySignal) (ptype : String) (st : BTState)
    (slots M : Int) (hcore : BTCore st)
    (hsum : (st.positions.length : Int) + slots ≤ M) (hs : 0 ≤ slots) :
    BTCore (executeEntry p sizer dt sym df sig ptype st slots).1 ∧
    ((executeEntry p sizer dt sym df sig ptype st slots).1.positions.length : Int) +
      (executeEntry p sizer dt sym df sig ptype st slots).2 ≤ M ∧
    0 ≤ (executeEntry p sizer dt sym df sig ptype st slots).2 ∧
    (executeEntry p sizer dt sym df sig ptype st slots).1.pending = st.pending := by
  rcases executeEntry_spec p sizer dt sym df sig ptype st slots with h |
    ⟨hlk, hslots, pos, t, st', hact, hsym, heq, hp, ht, hpend⟩
  · rw [h]
    exact ⟨hcore, hsum, hs, rfl⟩
  · rw [heq]
    obtain ⟨hnd, hbuy, hmat⟩ := hcore
    have hnm := lookup_none_not_mem st.positions sym hlk
    refine ⟨⟨?_, ?_, ?_⟩, ?_, by omega, hpend⟩
    · rw [hp]
      simp only [List.map_append, List.map_cons, List.map_nil]
      refine List.Nodup.append hnd (by simp) ?_
      intro a ha hb
      simp only [List.mem_singleton] at hb
      exact hnm (hb ▸ ha)
    · intro kv hkv
      rw [hp] at hkv
      rw [ht]
      rcases List.mem_append.mp hkv with hold | hnewp
      · obtain ⟨t0, ht0, h1, h2⟩ := hbuy kv hold
        exact ⟨t0, List.mem_append_left _ ht0, h1, h2⟩
      · simp only [List.mem_singleton] at hnewp
        refine ⟨t, List.mem_append_right _ (List.mem_singleton_self t), hact, ?_⟩
        rw [hsym, hnewp]
    · rw [ht, tradesMatched_append]
      simp only [Bool.and_eq_true]
      refine ⟨hmat, ?_⟩
      simp only [List.nil_append, tradesMatched, Bool.and_eq_true]
      exact ⟨buy_sellOk st.trades t hact, trivial⟩
    · rw [hp]
      simp only [List.length_append, List.length_cons, List.length_nil]
      push_cast
      omega

lemma exitScan_spec (p : BTParams) (evalExit : Position → ExitBar → ExitDecision × Position)
    (dt : Int) (md : MarketData) :
    ∀ (poss : List (String × Position)) (cash : ℚ) (trades : List Trade),
      ∃ kept cash2 new,
        exitScan p evalExit dt md poss cash trades = (kept, cash2, trades ++ new) ∧
        (kept.map Prod.fst).Sublist (poss.map Prod.fst) ∧
        (∀ kv ∈ kept, ∃ kv0 ∈ poss, kv0.1 = kv.1) ∧
        (∀ t ∈ new, t.action = "SELL" ∧ ∃ kv0 ∈ poss, kv0.1 = t.symbol) := by
  intro poss
  induction poss with
  | nil =>
      intro cash trades
      exact ⟨[], cash, [], by simp [exitScan], by simp, by simp, by simp⟩
  | cons kv rest ih =>
      intro cash trades
      obtain ⟨sym, pos⟩ := kv
      simp only [exitScan]
      cases hbar : (md.lookup sym).bind (fun df => df dt) with
      | none =>
          obtain ⟨kept, cash2, new, heq, hsub, hkeys, hnew⟩ := ih cash trades
          refine ⟨(sym, pos) :: kept, cash2, new, by rw [heq], ?_, ?_, ?_⟩
          · simpa using hsub.cons₂ sym
          · intro kv2 hkv2
            rcases List.mem_cons.mp hkv2 with h | h
            · exact ⟨(sym, pos), List.mem_cons_self _ _, by rw [h]⟩
            · obtain ⟨kv0, h0, h1⟩ := hkeys kv2 h
              exact ⟨kv0, List.mem_cons_of_mem _ h0, h1⟩
          · intro t ht
            obtain ⟨h1, kv0, h2, h3⟩ := hnew t ht
            exact ⟨h1, kv0, List.mem_cons_of_mem _ h2, h3⟩
      | some bar =>
          dsimp only
          split
          · -- exit: the SELL trade is appended and the position dropped
            obtain ⟨kept, cash2, new, heq, hsub, hkeys, hnew⟩ := ih _ (trades ++ [_])
            rw [heq]
            refine ⟨kept, cash2, _ :: new, by rw [List.append_assoc, List.singleton_append],
              hsub.trans (List.sublist_cons_self _ _), ?_, ?_⟩
            · intro kv2 hkv2
              obtain ⟨kv0, h0, h1⟩ := hkeys kv2 hkv2
              exact ⟨kv0, List.mem_cons_of_mem _ h0, h1⟩
            · intro t ht
              rcases List.mem_cons.mp ht with h | h
              · refine ⟨by rw [h], (sym, pos), List.mem_cons_self _ _, by rw [h]⟩
              · obtain ⟨h1, kv0, h2, h3⟩ := hnew t h
                exact ⟨h1, kv0, List.mem_cons_of_mem _ h2, h3⟩
          · -- no exit: keep the (possibly mutated) position
            obtain ⟨kept, cash2, new, heq, hsub, hkeys, hnew⟩ := ih cash trades
            refine ⟨(sym, _) :: kept, cash2, new, by rw [heq], ?_, ?_, ?_⟩
            · simpa using hsub.cons₂ sym
            · intro kv2 hkv2
              rcases List.mem_cons.mp hkv2 with h | h
              · exact ⟨(sym, pos), List.mem_cons_self _ _, by rw [h]⟩
              · obtain ⟨kv0, h0, h1⟩ := hkeys kv2 h
                exact ⟨kv0, List.mem_cons_of_mem _ h0, h1⟩
            · intro t ht
              obtain ⟨h1, kv0, h2, h3⟩ := hnew t ht
              exact ⟨h1, kv0, List.mem_cons_of_mem _ h2, h3⟩

lemma processExits_inv (p : BTParams) (evalExit : Position → ExitBar → ExitDecision × Position)
    (st : BTState) (dt : Int) (md : MarketData) (M : Int)
    (hcore : BTCore st) (hlen : (st.positions.length : Int) ≤ M) :
    BTCore (processExits p evalExit st dt md) ∧
    ((processExits p evalExit st dt md).positions.length : Int) ≤ M ∧
    (processExits p evalExit st dt md).pending = st.pending := by
  obtain ⟨hnd, hbuy, hmat⟩ := hcore
  obtain ⟨kept, cash2, new, heq, hsub, hkeys, hnew⟩ :=
    exitScan_spec p evalExit dt md st.positions st.cash st.trades
  unfold processExits
  rw [heq]
  have hkeptlen : kept.length ≤ st.positions.length := by
    have := hsub.length_le
    simpa using this
  refine ⟨⟨?_, ?_, ?_⟩, ?_, rfl⟩
  · exact hnd.sublist hsub
  · intro kv hkv
    obtain ⟨kv0, h0, h1⟩ := hkeys kv hkv
    obtain ⟨t0, ht0, ha, hsym⟩ := hbuy kv0 h0
    exact ⟨t0, List.mem_append_left _ ht0, ha, by rw [hsym, h1]⟩
  · rw [tradesMatched_append]
    simp only [Bool.and_eq_true, List.nil_append]
    refine ⟨hmat, tradesMatched_of_all new st.trades ?_⟩
    intro t ht
    obtain ⟨hsell, kv0, h0, h1⟩ := hnew t ht
    obtain ⟨b, hb, hba, hbs⟩ := hbuy kv0 h0
    exact sell_sellOk st.trades t ⟨b, hb, hba, by rw [hbs, h1]⟩
  · simp only
    omega

lemma entryScan_core (p : BTParams) (sizer : ℚ → Int → ℚ → Int) (dt : Int)
    (md : MarketData) (M : Int) :
    ∀ (sigs : List EntrySignal) (st : BTState) (slots : Int),
      BTCore st → (st.positions.length : Int) + slots ≤ M → 0 ≤ slots →
      BTCore (entryScan p sizer dt md sigs st slots) ∧
      ((entryScan p sizer dt md sigs st slots).positions.length : Int) ≤ M := by
  intro sigs
  induction sigs with
  | nil =>
      intro st slots hcore hsum hs
      exact ⟨hcore, by simp only [entryScan]; omega⟩
  | cons sig rest ih =>
      intro st slots hcore hsum hs
      simp only [entryScan]
      cases md.lookup sig.symbol with
      | none => exact ih st slots hcore hsum hs
      | some df =>
          dsimp only
          split
          · -- future-dated: queued as pending (core untouched)
            refine ih _ slots ?_ ?_ hs
            · exact hcore
            · simpa using hsum
          · obtain ⟨hcore2, hsum2, hs2, _⟩ :=
              executeEntry_core p sizer dt sig.symbol df sig
                (sig.exec_price_type.getD "close") st slots M hcore hsum hs
            split
            · exact ⟨hcore2, by omega⟩
            · exact ih _ _ hcore2 hsum2 hs2

lemma pendingScan_core (p : BTParams) (sizer : ℚ → Int → ℚ → Int) (dt : Int)
    (md : MarketData) (M : Int) :
    ∀ (sigs : List EntrySignal) (st : BTState) (slots : Int),
      BTCore st → (st.positions.length : Int) + slots ≤ M → 0 ≤ slots →
      BTCore (pendingScan p sizer dt md sigs st slots).1 ∧
      ((pendingScan p sizer dt md sigs st slots).1.positions.length : Int) ≤ M := by
  intro sigs
  induction sigs with
  | nil =>
      intro st slots hcore hsum hs
      exact ⟨hcore, by simp only [pendingScan]; omega⟩
  | cons sig rest ih =>
      intro st slots hcore hsum hs
      simp only [pendingScan]
      split
      · exact ih st slots hcore hsum hs
      · split
        · exact ih st slots hcore hsum hs
        · cases md.lookup sig.symbol with
          | none => exact ih st slots hcore hsum hs
          | some df =>
              dsimp only
              obtain ⟨hcore2, hsum2, hs2, _⟩ :=
                executeEntry_core p sizer dt sig.symbol df sig
                  (sig.exec_price_type.getD "open") st slots M hcore hsum hs
              exact ih _ _ hcore2 hsum2 hs2

lemma processEntries_inv (p : BTParams) (sizer : ℚ → Int → ℚ → Int)
    (genEntries : MarketData → List EntrySignal) (st : BTState) (dt : Int)
    (md : MarketData) (hcore : BTCore st)
    (hlen : (st.positions.length : Int) ≤ p.max_positions) :
    BTCore (processEntries p sizer genEntries st dt md) ∧
    ((processEntries p sizer genEntries st dt md).positions.length : Int) ≤ p.max_positions := by
  unfold processEntries
  dsimp only
  split
  · exact ⟨hcore, hlen⟩
  · exact entryScan_core p sizer dt md p.max_positions (genEntries md) st
      (p.max_positions - (st.positions.length : Int)) hcore (by omega) (by omega)

lemma processPendingEntries_inv (p : BTParams) (sizer : ℚ → Int → ℚ → Int)
    (st : BTState) (dt : Int) (md : MarketData) (hcore : BTCore st)
    (hlen : (st.positions.length : Int) ≤ p.max_positions) :
    BTCore (processPendingEntries p sizer st dt md) ∧
    ((processPendingEntries p sizer st dt md).positions.length : Int) ≤ p.max_positions := by
  unfold processPendingEntries
  dsimp only
  split
  · exact ⟨hcore, hlen⟩
  · obtain ⟨⟨h1, h2, h3⟩, h4⟩ :=
      pendingScan_core p sizer dt md p.max_positions st.pending st
        (p.max_positions - (st.positions.length : Int)) hcore (by omega) (by omega)
    exact ⟨⟨h1, h2, h3⟩, h4⟩

lemma markToMarket_inv (st : BTState) (dt : Int) (md : MarketData) (M : Int)
    (hcore : BTCore st) (hlen : (st.positions.length : Int) ≤ M) :
    BTCore (markToMarket st dt md) ∧
    ((markToMarket st dt md).positions.length : Int) ≤ M := by
  exact ⟨hcore, hlen⟩

lemma runStep_inv (p : BTParams) (sizer : ℚ → Int → ℚ → Int)
    (genEntries : MarketData → List EntrySignal)
    (evalExit : Position → ExitBar → ExitDecision × Position)
    (loadUniverse : Int → MarketData) (st : BTState) (dt : Int)
    (hcore : BTCore st) (hlen : (st.positions.length : Int) ≤ p.max_positions) :
    BTCore (runStep p sizer genEntries evalExit loadUniverse st dt) ∧
    ((runStep p sizer genEntries evalExit loadUniverse st dt).positions.length : Int) ≤
      p.max_positions := by
  unfold runStep
  obtain ⟨h1, h2⟩ := processPendingEntries_inv p sizer st dt (loadUniverse dt) hcore hlen
  obtain ⟨h3, h4, _⟩ := processExits_inv p evalExit _ dt (loadUniverse dt) p.max_positions h1 h2
  obtain ⟨h5, h6⟩ := processEntries_inv p sizer genEntries _ dt (loadUniverse dt) h3 h4
  exact markToMarket_inv _ dt (loadUniverse dt) p.max_positions h5 h6

/-- C5: throughout any `Backtester.run` — for every strategy, sizer,
market-data source, date list and capital — the open positions hold at
most one entry per symbol, their count never exceeds `max_positions`
(taken non-negative), every SELL trade in the log is preceded by a
matching BUY for the same symbol, and `_execute_entry` on an already-held
symbol is a no-op. -/
theorem backtester_invariants (p : BTParams) (sizer : ℚ → Int → ℚ → Int)
    (genEntries : MarketData → List EntrySignal)
    (evalExit : Position → ExitBar → ExitDecision × Position)
    (loadUniverse : Int → MarketData) (dates : List Int) (initial_capital : ℚ)
    (hmax : 0 ≤ p.max_positions) :
    ((runBacktest p sizer genEntries evalExit loadUniverse dates
        initial_capital).positions.map Prod.fst).Nodup ∧
    ((runBacktest p sizer genEntries evalExit loadUniverse dates
        initial_capital).positions.length : Int) ≤ p.max_positions ∧
    tradesMatched [] (runBacktest p sizer genEntries evalExit loadUniverse dates
        initial_capital).trades = true ∧
    (∀ (st : BTState) (dt : Int) (sym : String) (df : DFrame) (sig : EntrySignal)
        (ptype : String) (slots : Int),
      (st.positions.lookup sym).isSome = true →
      executeEntry p sizer dt sym df sig ptype st slots = (st, slots)) := by
  have hfold : ∀ (ds : List Int) (st : BTState),
      BTCore st → (st.positions.length : Int) ≤ p.max_positions →
      BTCore (ds.foldl (runStep p sizer genEntries evalExit loadUniverse) st) ∧
      ((ds.foldl (runStep p sizer genEntries evalExit loadUniverse)
        st).positions.length : Int) ≤ p.max_positions := by
    intro ds
    induction ds with
    | nil => intro st h1 h2; exact ⟨h1, h2⟩
    | cons d ds ih =>
        intro st h1 h2
        simp only [List.foldl_cons]
        obtain ⟨h3, h4⟩ := runStep_inv p sizer genEntries evalExit loadUniverse st d h1 h2
        exact ih _ h3 h4
  have hinit : BTCore (initBTState initial_capital) :=
    ⟨by simp [initBTState], by simp [initBTState], rfl⟩
  obtain ⟨⟨hnd, _, hmat⟩, hlen⟩ := hfold dates (initBTState initial_capital) hinit
    (by simp [initBTState]; omega)
  refine ⟨hnd, hlen, hmat, ?_⟩
  intro st dt sym df sig ptype slots hheld
  unfold executeEntry
  rw [if_pos hheld]

/-- Exit rule that always fires at the bar close (decision price `None`). -/
def exitAlways : Position → ExitBar → ExitDecision × Position :=
  fun pos _ => ({ exit := true, reason := "stop_loss", price := none }, pos)

def constSizer (n : Int) : ℚ → Int → ℚ → Int := fun _ _ _ => n

def c5Signal : EntrySignal :=
  { symbol := "600000", date := 0, price := 10, stop_loss := 9, target_price := 13,
    exec_date := none, exec_price_type := none, metaExecution := none }

def c5LoadU : Int → MarketData :=
  fun d => [("600000", fun t => if t = d then some { openPx := 10, closePx := 10 } else none)]

theorem backtester_invariants_witness :
    ((runBacktest defaultBTParams (constSizer 10) (fun _ => [c5Signal]) exitAlways c5LoadU
        [0, 1] 1000000).positions.map Prod.fst).Nodup ∧
    ((runBacktest defaultBTParams (constSizer 10) (fun _ => [c5Signal]) exitAlways c5LoadU
        [0, 1] 1000000).positions.length : Int) ≤ defaultBTParams.max_positions ∧
    tradesMatched [] (runBacktest defaultBTParams (constSizer 10) (fun _ => [c5Signal])
        exitAlways c5LoadU [0, 1] 1000000).trades = true := by
  have h := backtester_invariants defaultBTParams (constSizer 10) (fun _ => [c5Signal])
    exitAlways c5LoadU [0, 1] 1000000 (by norm_num [defaultBTParams])
  exact ⟨h.1, h.2.1, h.2.2.1⟩

/-! ## C6: slippage/commission round trip through the backtester -/

def flatDf (P : ℚ) : DFrame := fun _ => some { openPx := P, closePx := P }

def c6Signal (P : ℚ) : EntrySignal :=
  { symbol := "600000", date := 0, price := P, stop_loss := 0, target_price := P,
    exec_date := none, exec_price_type := none, metaExecution := none }

/-- Buy at date 0 through `_execute_entry` (same-day close), then sell at
date 1 through `_process_exits`, at the same underlying price `P`. -/
def roundTrip (p : BTParams) (P cash : ℚ) (n : Int) : BTState :=
  let st1 := (executeEntry p (constSizer n) 0 "600000" (flatDf P) (c6Signal P) "close"
    (initBTState cash) 1).1
  processExits p exitAlways st1 1 [("600000", flatDf P)]

/-- C6: slippage raises the BUY execution price and lowers the SELL price
by `price × slippage_bp / 10000`, commission is gross notional ×
commission_rate; consequently a buy-then-sell round trip at an unchanged
underlying price with non-zero slippage (below 100%) and commission
records a strictly negative pnl on the SELL trade and strictly positive
commissions on both trades. -/
theorem slippage_commission_roundtrip (p : BTParams) (P cash : ℚ) (n : Int)
    (hbp0 : 0 < p.slippage_bp) (hbp1 : p.slippage_bp < 10000)
    (hcr : 0 < p.commission_rate) (hP : 0 < P) (hn : 0 < n)
    (hcash : (n : ℚ) * (P * (1 + p.slippage_bp / 10000)) * (1 + p.commission_rate) ≤ cash) :
    (∀ q : ℚ, applySlippage p q "BUY" = q + q * (p.slippage_bp / 10000) ∧
              applySlippage p q "SELL" = q - q * (p.slippage_bp / 10000)) ∧
    (∀ g : ℚ, applyCommission p g = g * p.commission_rate) ∧
    (roundTrip p P cash n).trades.map (fun t => t.action) = ["BUY", "SELL"] ∧
    (∀ t ∈ (roundTrip p P cash n).trades, 0 < t.commission) ∧
    (∀ t ∈ (roundTrip p P cash n).trades, t.action = "SELL" → t.pnl < 0) := by
  have hslipB : ∀ q : ℚ, applySlippage p q "BUY" = q + q * (p.slippage_bp / 10000) := by
    intro q
    simp [applySlippage]
  have hslipS : ∀ q : ℚ, applySlippage p q "SELL" = q - q * (p.slippage_bp / 10000) := by
    intro q
    simp [applySlippage, sub_eq_add_neg]
  have hcomm : ∀ g : ℚ, applyCommission p g = g * p.commission_rate := fun g => rfl
  have htot : (n : ℚ) * applySlippage p P "BUY" +
      applyCommission p ((n : ℚ) * applySlippage p P "BUY") =
      (n : ℚ) * (P * (1 + p.slippage_bp / 10000)) * (1 + p.commission_rate) := by
    rw [hslipB, hcomm]
    ring
  have hnocash : ¬ (initBTState cash).cash <
      (n : ℚ) * applySlippage p P "BUY" +
        applyCommission p ((n : ℚ) * applySlippage p P "BUY") := by
    rw [htot]
    exact not_lt.mpr hcash
  have hexec : executeEntry p (constSizer n) 0 "600000" (flatDf P) (c6Signal P) "close"
      (initBTState cash) 1 =
      ({ cash := cash - ((n : ℚ) * applySlippage p P "BUY" +
           applyCommission p ((n : ℚ) * applySlippage p P "BUY")),
         positions := [("600000",
           { symbol := "600000", shares := n, entry_price := applySlippage p P "BUY",
             stop_loss := some 0, target_price := some P,
             entry_date := 0, highest_price := some (applySlippage p P "BUY") })],
         trades := [{ date := 0, symbol := "600000", action := "BUY",
                      price := applySlippage p P "BUY", shares := n, pnl := 0,
                      commission := applyCommission p ((n : ℚ) * applySlippage p P "BUY"),
                      holding_days := none, reason := "entry" }],
         pending := [], history := [] }, 0) := by
    unfold executeEntry
    rw [show (List.lookup "600000" (initBTState cash).positions).isSome = false from rfl]
    simp only [Bool.false_eq_true, if_false]
    rw [show flatDf P 0 = some { openPx := P, closePx := P } from rfl]
    simp only [constSizer]
    rw [if_neg (by norm_num : ¬ (1 : Int) ≤ 0),
      if_neg (by decide : ¬ ("close" = "open")),
      if_neg (not_le.mpr hn), if_neg hnocash]
    rfl
  -- the SELL leg
  have hupd : advUpdateHigh
      { symbol := "600000", shares := n, entry_price := applySlippage p P "BUY",
        stop_loss := some 0, target_price := some P,
        entry_date := 0, highest_price := some (applySlippage p P "BUY") } P =
      { symbol := "600000", shares := n, entry_price := applySlippage p P "BUY",
        stop_loss := some 0, target_price := some P,
        entry_date := 0, highest_price := some (applySlippage p P "BUY") } := by
    have hnl : ¬ applySlippage p P "BUY" < P := by
      rw [hslipB]
      intro hc
      nlinarith
    simp only [advUpdateHigh]
    rw [if_neg hnl]
  have hfinal : roundTrip p P cash n =
      { cash := cash - ((n : ℚ) * applySlippage p P "BUY" +
            applyCommission p ((n : ℚ) * applySlippage p P "BUY")) +
          applySlippage p P "SELL" * (n : ℚ) -
          applySlippage p P "SELL" * (n : ℚ) * p.commission_rate,
        positions := [],
        trades := [{ date := 0, symbol := "600000", action := "BUY",
                     price := applySlippage p P "BUY", shares := n, pnl := 0,
                     commission := applyCommission p ((n : ℚ) * applySlippage p P "BUY"),
                     holding_days := none, reason := "entry" },
                   { date := 1, symbol := "600000", action := "SELL",
                     price := applySlippage p P "SELL", shares := n,
                     pnl := (applySlippage p P "SELL" - applySlippage p P "BUY") * (n : ℚ) -
                       applySlippage p P "SELL" * (n : ℚ) * p.commission_rate,
                     commission := applySlippage p P "SELL" * (n : ℚ) * p.commission_rate,
                     holding_days := some (1 - 0), reason := "stop_loss" }],
        pending := [], history := [] } := by
    unfold roundTrip
    rw [hexec]
    unfold processExits
    dsimp only
    simp only [exitScan, List.lookup, beq_self_eq_true, Option.some_bind]
    rw [show flatDf P 1 = some { openPx := P, closePx := P } from rfl]
    simp only [exitAlways, hupd, decisionExecPrice, applyCommission]
    rfl
  have h2 : (0:ℚ) < (n:ℚ) := by exact_mod_cast hn
  have h1s : (0:ℚ) < 1 - p.slippage_bp / 10000 := by
    have hd : p.slippage_bp / 10000 < 1 := by
      rw [div_lt_one (by norm_num : (0:ℚ) < 10000)]
      exact hbp1
    linarith
  have h1b : (0:ℚ) < 1 + p.slippage_bp / 10000 := by positivity
  have h3 : (0:ℚ) < p.slippage_bp / 10000 := by positivity
  refine ⟨fun q => ⟨hslipB q, hslipS q⟩, hcomm, ?_, ?_, ?_⟩
  · rw [hfinal]
    rfl
  · intro t ht
    rw [hfinal] at ht
    simp only [List.mem_cons, List.not_mem_nil, or_false] at ht
    rcases ht with rfl | rfl
    · simp only [hcomm, hslipB]
      have hy : (0:ℚ) < P + P * (p.slippage_bp / 10000) := by nlinarith
      exact mul_pos (mul_pos h2 hy) hcr
    · simp only [hslipS]
      have hy2 : (0:ℚ) < P - P * (p.slippage_bp / 10000) := by nlinarith
      exact mul_pos (mul_pos hy2 h2) hcr
  · intro t ht hsell
    rw [hfinal] at ht
    simp only [List.mem_cons, List.not_mem_nil, or_false] at ht
    rcases ht with rfl | rfl
    · simp at hsell
    · simp only [hslipS, hslipB]
      have hy2 : (0:ℚ) < P - P * (p.slippage_bp / 10000) := by nlinarith
      have hq : (0:ℚ) < P * (p.slippage_bp / 10000) := by positivity
      nlinarith [mul_pos hq h2, mul_pos (mul_pos hy2 h2) hcr]

theorem slippage_commission_roundtrip_witness :
    (roundTrip defaultBTParams 100 1000000 10).trades.map (fun t => t.action) =
      ["BUY", "SELL"] ∧
    (∀ t ∈ (roundTrip defaultBTParams 100 1000000 10).trades, 0 < t.commission) ∧
    (∀ t ∈ (roundTrip defaultBTParams 100 1000000 10).trades,
      t.action = "SELL" → t.pnl < 0) := by
  have h := slippage_commission_roundtrip defaultBTParams 100 1000000 10
    (by norm_num [defaultBTParams]) (by norm_num [defaultBTParams])
    (by norm_num [defaultBTParams]) (by norm_num) (by norm_num)
    (by norm_num [defaultBTParams])
  exact ⟨h.2.2.1, h.2.2.2.1, h.2.2.2.2⟩

end S2P
